import Mathlib

/-!
Verification of the pacman contest judge core (`pacman-core`).

This file gives a shallow embedding, in Lean 4, of the data model and the
operations of the simulation kernel: the contract types (`contract.rs`),
the rate limiter (`rate_limiter.rs`), the scoreboard (`scoreboard.rs`),
the tick resolver and rule matcher (`evaluator.rs`), and the game
registry (`lib.rs`).  Machine integers are modelled as `Nat` (for `u64`
and `usize`, with wrapping arithmetic written explicitly modulo `2 ^ 64`)
and as `Int` (for `i64` and for timestamps, measured in seconds).
Timestamps (`chrono::DateTime<Utc>`) and durations are modelled as `Int`;
only their ordered additive structure is used by the code.

Theorems about each claim follow the definitions.
-/

/-! ## Contract types (`pacman-core/src/contract.rs`) -/

/-- A grid cell (`contract::Cell`). -/
inductive Cell
  | wall
  | empty
  deriving DecidableEq, Repr

/-- A move (`contract::Move`). -/
inductive Move
  | up
  | down
  | left
  | right
  | wait
  deriving DecidableEq, Repr

/-- Death annotation of an object (`contract::DeathState`). -/
inductive DeathState
  | alive
  | diesAtEnd
  | diesInMiddle
  deriving DecidableEq, Repr

/-- Kind of an object (`contract::ObjectKind`).  The Rust type derives
`Ord` with declaration order `Berry < Ghost < Pacman`. -/
inductive ObjectKind
  | berry
  | ghost
  | pacman
  deriving DecidableEq, Repr

/-- Rank realizing the derived `Ord` of `contract::ObjectKind`
(declaration order). -/
def ObjectKind.rank : ObjectKind → Nat
  | .berry => 0
  | .ghost => 1
  | .pacman => 2

/-- `std::cmp::max` on `ObjectKind` (returns the second argument when
equal, as in Rust). -/
def ObjectKind.maxKind (a b : ObjectKind) : ObjectKind :=
  if b.rank < a.rank then a else b

/-- Per-agent rule state (`contract::RuleState`). -/
inductive RuleState
  | A
  | B
  | C
  | D
  | E
  | F
  | G
  | H
  deriving DecidableEq, Repr

/-- Observed cell content used by rule filters (`contract::RuleCell`). -/
inductive RuleCell
  | wall
  | empty
  | ghost
  | berry
  | pacman
  deriving DecidableEq, Repr

/-- Berry-taken filter (`contract::RuleBerry`). -/
inductive RuleBerry
  | taken
  | notTaken
  deriving DecidableEq, Repr

/-- Outcome of an evaluation (`contract::Outcome`). -/
inductive Outcome
  | success
  | fail
  | outOfMoves
  deriving DecidableEq, Repr

/-- A single rule of a program (`contract::Rule`). -/
structure Rule where
  current_state : Option RuleState
  up : Option RuleCell
  down : Option RuleCell
  left : Option RuleCell
  right : Option RuleCell
  berry : Option RuleBerry
  next_move : Move
  next_state : RuleState
  deriving DecidableEq, Repr

/-- A program: an ordered rule list (`contract::Program`). -/
structure Program where
  rules : List Rule
  deriving DecidableEq, Repr

/-- A live object on the grid (`contract::Object`).  `row` and `col` are
`u64` values, modelled as `Nat`. -/
structure Object where
  id : Nat
  row : Nat
  col : Nat
  current_move : Move
  intended_move : Move
  state : DeathState
  kind : ObjectKind
  deriving DecidableEq, Repr

/-- The level grid plus objects (`contract::LevelState`). -/
structure LevelState where
  cells : List (List Cell)
  objects : List Object
  deriving DecidableEq, Repr

/-- One tick snapshot (`contract::Step`). -/
structure Step where
  objects : List Object
  deriving DecidableEq, Repr

/-- Result of evaluating one submission (`contract::SubmissionDetails`). -/
structure SubmissionDetails where
  initial_state : LevelState
  steps : List Step
  outcome : Outcome
  deriving DecidableEq, Repr

/-- A level (`contract::Level`). -/
structure Level where
  state : LevelState
  ghost_program : Program
  deriving DecidableEq, Repr

/-- Response of a submit call (`contract::SubmitResponse`). -/
inductive SubmitResponse
  | ok
  | rateLimitExceeded
  | levelClosed
  | unauthorized
  deriving DecidableEq, Repr

/-- Exported scoreboard entry (`contract::ScoreboardEntry`). -/
structure ScoreboardEntry where
  user : String
  solved : Nat
  tie_breaker : String
  deriving DecidableEq, Repr

/-- Exported scoreboard (`contract::Scoreboard`). -/
structure ContractScoreboard where
  title : String
  entries : List ScoreboardEntry
  deriving DecidableEq, Repr

/-! ## Rate limiter (`pacman-core/src/rate_limiter.rs`)

Timestamps and the window duration are modelled as `Int` (seconds); the
code uses only comparison and `instant + window < time`. -/

/-- The rate limiter state (`rate_limiter::RateLimiter`). -/
structure RateLimiter where
  max_submissions : Nat
  time_window : Int
  entries : List Int
  deriving DecidableEq, Repr

/-- `RateLimiter::new` (the `assert!(max_submissions > 0)` is carried as
a hypothesis of the theorems that rely on it). -/
def RateLimiter.mk_new (max_submissions : Nat) (time_window : Int) : RateLimiter :=
  { max_submissions := max_submissions, time_window := time_window, entries := [] }

/-- `self.entries.iter().enumerate().min_by_key(|item| item.1)`: index
and value of the first minimal entry (Rust's `min_by_key` returns the
first of several equally minimal elements). -/
def minEntry : List Int → Option (Nat × Int)
  | [] => none
  | x :: xs =>
    match minEntry xs with
    | none => some (0, x)
    | some (i, v) => if x ≤ v then some (0, x) else some (i + 1, v)

/-- `RateLimiter::submit`.  The returned `Bool` is `true` for `Ok(())`
and `false` for `Err(RateLimitExceeded)`. -/
def RateLimiter.submit (rl : RateLimiter) (time : Int) : Bool × RateLimiter :=
  if rl.entries.length < rl.max_submissions then
    (true, { rl with entries := rl.entries ++ [time] })
  else
    match minEntry rl.entries with
    | some (index, instant) =>
      if instant + rl.time_window < time then
        (true, { rl with entries := rl.entries.set index time })
      else
        (false, rl)
    | none => (true, { rl with entries := rl.entries ++ [time] })

/-- Run a sequence of `submit` calls, returning the timestamps of the
calls that were admitted (`Ok`), in order. -/
def RateLimiter.submitRun (rl : RateLimiter) : List Int → List Int
  | [] => []
  | t :: ts =>
    let r := rl.submit t
    if r.1 then t :: r.2.submitRun ts else r.2.submitRun ts

/-! ## Scoreboard (`pacman-core/src/scoreboard.rs`)

The `HashMap<String, UserScore>` is modelled as an association list; the
exported views sort the collected entries with a total comparator, so
the hash map's iteration order does not matter for the ranking claims. -/

/-- Per-user best score (`scoreboard::UserScore`): `solved_levels: u64`,
`time_penalty: i64`, `size_penalty: usize`. -/
structure UserScore where
  solved_levels : Nat
  time_penalty : Int
  size_penalty : Nat
  deriving DecidableEq, Repr

/-- The scoreboard state (`scoreboard::Scoreboard`). -/
structure Scoreboard where
  user_scores : List (String × UserScore)
  deriving DecidableEq, Repr

/-- `Ord::cmp` on a linearly ordered type (models Rust `cmp` on `u64`,
`i64`, `usize` and on `String`, whose order is lexicographic). -/
def cmpLin {α : Type} [LinearOrder α] (a b : α) : Ordering :=
  if a < b then Ordering.lt else if a = b then Ordering.eq else Ordering.gt

/-- The comparator of `Scoreboard::to_contract_with_time` /
`_with_size`, generic in the penalty type:
`(score1, Reverse(penalty1), user1).cmp(&(score2, Reverse(penalty2), user2)).reverse()`.
`Reverse` swaps the comparison of the penalties; the final `.reverse()`
swaps the whole lexicographic result. -/
def entryCmp {π : Type} [LinearOrder π] (a b : String × Nat × π) : Ordering :=
  (((cmpLin a.2.1 b.2.1).then (cmpLin a.2.2 b.2.2).swap).then (cmpLin a.1 b.1)).swap

/-- `sort_by` admits an element order `a ≤ b ↔ cmp(a, b) ≠ Greater`. -/
def entryLe {π : Type} [LinearOrder π] (a b : String × Nat × π) : Bool :=
  decide (entryCmp a b ≠ Ordering.gt)

/-- Zero-padding of `format!("{:>02}", n)` for the seconds field. -/
def pad2 (n : Nat) : String :=
  if n < 10 then "0" ++ toString n else toString n

/-- `scoreboard::format_time_penalty`.  For `time ≥ 0` Rust's `i64`
division and remainder by 60 agree with `Nat` division on `time.toNat`;
the negative branch negates first, exactly as the source does. -/
def format_time_penalty (time : Int) : String :=
  if 0 ≤ time then
    toString (time.toNat / 60) ++ ":" ++ pad2 (time.toNat % 60)
  else
    "-" ++ toString ((-time).toNat / 60) ++ ":" ++ pad2 ((-time).toNat % 60)

/-- The collected-and-sorted tuple list of
`Scoreboard::to_contract_with_time` (entries are `(user, solved,
time_penalty)`; `Vec::sort_by` is a stable merge sort, modelled with
`List.mergeSort`). -/
def Scoreboard.sortedTimeEntries (sb : Scoreboard) : List (String × Nat × Int) :=
  (sb.user_scores.map (fun p => (p.1, p.2.solved_levels, p.2.time_penalty))).mergeSort entryLe

/-- `Scoreboard::to_contract_with_time`. -/
def Scoreboard.to_contract_with_time (sb : Scoreboard) (title : String) : ContractScoreboard :=
  { title := title
    entries := sb.sortedTimeEntries.map (fun q =>
      { user := q.1, solved := q.2.1, tie_breaker := format_time_penalty q.2.2 }) }

/-- The collected-and-sorted tuple list of
`Scoreboard::to_contract_with_size`. -/
def Scoreboard.sortedSizeEntries (sb : Scoreboard) : List (String × Nat × Nat) :=
  (sb.user_scores.map (fun p => (p.1, p.2.solved_levels, p.2.size_penalty))).mergeSort entryLe

/-- `Scoreboard::to_contract_with_size`. -/
def Scoreboard.to_contract_with_size (sb : Scoreboard) (title : String) : ContractScoreboard :=
  { title := title
    entries := sb.sortedSizeEntries.map (fun q =>
      { user := q.1, solved := q.2.1, tie_breaker := toString q.2.2 }) }

/-! ## Tick resolver (`pacman-core/src/evaluator.rs`)

`usize` and `u64` are both 64 bits wide on the reference platform; the
casts between them in the source are identities, and the wrapping
coordinate arithmetic is written explicitly modulo `2 ^ 64`. -/

/-- Modulus of `usize` / `u64` arithmetic. -/
def USIZE_MOD : Nat := 2 ^ 64

/-- `x.wrapping_sub(1)` on `usize`. -/
def wrapSub1 (x : Nat) : Nat := (x + (USIZE_MOD - 1)) % USIZE_MOD

/-- `x.wrapping_add(1)` on `usize`. -/
def wrapAdd1 (x : Nat) : Nat := (x + 1) % USIZE_MOD

/-- Kernel-private per-object data (`evaluator::ObjectInfo`). -/
structure ObjectInfo where
  obj : Object
  state : RuleState
  next_row : Nat
  next_col : Nat
  deriving DecidableEq, Repr

/-- `(row, col)` / `(next_row, next_col)` of an object:
`ObjectInfo::pos` paired with `ObjectInfo::next_pos`. -/
def posnext (o : ObjectInfo) : (Nat × Nat) × (Nat × Nat) :=
  ((o.obj.row, o.obj.col), (o.next_row, o.next_col))

/-- Static grid lookup with out-of-bounds defaulting to `Wall`
(the `.get(row).and_then(|r| r.get(col)).unwrap_or(Cell::Wall)`
pattern shared by `Evaluator::get_cell` and `Evaluator::can_pass`). -/
def getStatic (cells : List (List Cell)) (row col : Nat) : Cell :=
  ((cells.get? row).bind (fun r => r.get? col)).getD Cell.wall

/-- `Evaluator::get_cell` (list-level): the observed content of a cell,
collapsing co-located objects to their maximum kind. -/
def getCell (cells : List (List Cell)) (objects : List ObjectInfo)
    (row col : Nat) : RuleCell :=
  let static_cell := getStatic cells row col
  let obj : Option ObjectKind := objects.foldl
    (fun acc object =>
      if object.obj.row = row ∧ object.obj.col = col then
        match acc with
        | some o => some (o.maxKind object.obj.kind)
        | none => some object.obj.kind
      else acc) none
  match obj, static_cell with
  | some ObjectKind.pacman, _ => RuleCell.pacman
  | some ObjectKind.ghost, _ => RuleCell.ghost
  | some ObjectKind.berry, _ => RuleCell.berry
  | none, Cell.wall => RuleCell.wall
  | none, Cell.empty => RuleCell.empty

/-- `Evaluator::is_berry_taken` (list-level). -/
def isBerryTakenL (objects : List ObjectInfo) : Bool :=
  objects.all (fun o => decide (o.obj.kind ≠ ObjectKind.berry))

/-- Whether one rule matches (the filter checks of
`Evaluator::pick_move`, in source order). -/
def ruleMatches (cells : List (List Cell)) (objects : List ObjectInfo)
    (state : RuleState) (row col : Nat) (rule : Rule) : Bool :=
  (match rule.current_state with
   | some expected => decide (expected = state)
   | none => true) &&
  (match rule.up with
   | some expected => decide (expected = getCell cells objects (wrapSub1 row) col)
   | none => true) &&
  (match rule.down with
   | some expected => decide (expected = getCell cells objects (wrapAdd1 row) col)
   | none => true) &&
  (match rule.left with
   | some expected => decide (expected = getCell cells objects row (wrapSub1 col))
   | none => true) &&
  (match rule.right with
   | some expected => decide (expected = getCell cells objects row (wrapAdd1 col))
   | none => true) &&
  (match rule.berry with
   | some RuleBerry.taken => isBerryTakenL objects
   | some RuleBerry.notTaken => !(isBerryTakenL objects)
   | none => true)

/-- The first-match walk of `Evaluator::pick_move` over the rule list. -/
def pickMoveRules (cells : List (List Cell)) (objects : List ObjectInfo)
    (state : RuleState) (row col : Nat) : List Rule → RuleState × Move
  | [] => (state, Move.wait)
  | rule :: rest =>
    if ruleMatches cells objects state row col rule then
      (rule.next_state, rule.next_move)
    else
      pickMoveRules cells objects state row col rest

/-- `Evaluator::pick_move` (list-level). -/
def pickMove (cells : List (List Cell)) (objects : List ObjectInfo)
    (program : Program) (state : RuleState) (row col : Nat) : RuleState × Move :=
  pickMoveRules cells objects state row col program.rules

/-- `Evaluator::can_pass`. -/
def canPass (cells : List (List Cell)) (row col : Nat) : Bool :=
  match getStatic cells row col with
  | Cell.empty => true
  | Cell.wall => false

/-- The `(new_row, new_col)` pair computed by the `match` of
`Evaluator::next_pos` (coordinates wrap at `2 ^ 64` exactly as
`usize::wrapping_sub` / `usize::wrapping_add` do). -/
def moveTarget (m : Move) (row col : Nat) : Nat × Nat :=
  match m with
  | Move.up => (wrapSub1 row, col)
  | Move.down => (wrapAdd1 row, col)
  | Move.left => (row, wrapSub1 col)
  | Move.right => (row, wrapAdd1 col)
  | Move.wait => (row, col)

/-- `Evaluator::next_pos`: `(blocked, new_row, new_col)`. -/
def nextPosOf (cells : List (List Cell)) (o : ObjectInfo) : Bool × Nat × Nat :=
  let row := o.obj.row
  let col := o.obj.col
  let target : Nat × Nat :=
    match o.obj.current_move with
    | Move.up => (wrapSub1 row, col)
    | Move.down => (wrapAdd1 row, col)
    | Move.left => (row, wrapSub1 col)
    | Move.right => (row, wrapAdd1 col)
    | Move.wait => (row, col)
  if canPass cells target.1 target.2 then (false, target.1, target.2)
  else (true, row, col)

/-- The tail of one iteration of the move-selection loop, shared by the
Pac-Man and Ghost arms: run the rule matcher against the context `ctx`,
record the intended and current move, stage the next position, and snap
back to `Wait` when blocked. -/
def phase1Compute (cells : List (List Cell)) (ctx : List ObjectInfo)
    (program : Program) (oi : ObjectInfo) : ObjectInfo :=
  let r := pickMove cells ctx program oi.state oi.obj.row oi.obj.col
  let oi := { oi with
    state := r.1
    obj := { oi.obj with current_move := r.2, intended_move := r.2 } }
  let np := nextPosOf cells oi
  let oi := { oi with next_row := np.2.1, next_col := np.2.2 }
  if np.1 then { oi with obj := { oi.obj with current_move := Move.wait } } else oi

/-- One iteration (index `i`) of the move-selection loop of
`Evaluator::prepare_moves` (phase 1): `current_move` is first reset to
`Wait`, a Berry stops there (`continue`), a Pac-Man uses the
contestant's program and a Ghost the level's ghost program. -/
def phase1Step (cells : List (List Cell)) (pprog gprog : Program)
    (objs : List ObjectInfo) (i : Nat) : List ObjectInfo :=
  match objs.get? i with
  | none => objs
  | some oi0 =>
    let oi := { oi0 with obj := { oi0.obj with current_move := Move.wait } }
    let objs1 := objs.set i oi
    match oi.obj.kind with
    | ObjectKind.berry => objs1
    | ObjectKind.pacman => objs1.set i (phase1Compute cells objs1 pprog oi)
    | ObjectKind.ghost => objs1.set i (phase1Compute cells objs1 gprog oi)

/-- The effect of the phase-1 loop body on one object, with the rule
matcher reading a fixed context list `ctx`. -/
def phase1Single (cells : List (List Cell)) (pprog gprog : Program)
    (ctx : List ObjectInfo) (oi0 : ObjectInfo) : ObjectInfo :=
  let oi := { oi0 with obj := { oi0.obj with current_move := Move.wait } }
  match oi.obj.kind with
  | ObjectKind.berry => oi
  | ObjectKind.pacman => phase1Compute cells ctx pprog oi
  | ObjectKind.ghost => phase1Compute cells ctx gprog oi

/-- Phase 1 of `Evaluator::prepare_moves`: the move-selection loop. -/
def phase1 (cells : List (List Cell)) (pprog gprog : Program)
    (objs : List ObjectInfo) : List ObjectInfo :=
  (List.range objs.length).foldl (phase1Step cells pprog gprog) objs

/-- Replace the death state of the object at one index. -/
def withDeath (o : ObjectInfo) (d : DeathState) : ObjectInfo :=
  { o with obj := { o.obj with state := d } }

/-- `self.objects[k].obj.state = d` as a list operation. -/
def setDeath (objs : List ObjectInfo) (k : Nat) (d : DeathState) : List ObjectInfo :=
  match objs.get? k with
  | some o => objs.set k (withDeath o d)
  | none => objs

/-- The inner-loop body shared by phases 2 and 3: ghost `j` against the
Pac-Man snapshot `pc` of outer index `i`.  When `b` (the sampled
`is_berry_taken`) holds the ghost is marked with `mark`, else the
Pac-Man at outer index `i` is.  `coll` receives `(pos, next_pos)` of
the Pac-Man and of the Ghost. -/
def collideInnerStep (mark : DeathState)
    (coll : (Nat × Nat) × (Nat × Nat) → (Nat × Nat) × (Nat × Nat) → Bool)
    (b : Bool) (pc : (Nat × Nat) × (Nat × Nat)) (i : Nat)
    (acc2 : List ObjectInfo) (j : Nat) : List ObjectInfo :=
  match acc2.get? j with
  | none => acc2
  | some oj =>
    if oj.obj.kind = ObjectKind.ghost then
      if coll pc (posnext oj) then
        if b then setDeath acc2 j mark else setDeath acc2 i mark
      else acc2
    else acc2

/-- The outer-loop body shared by phases 2 and 3: Pac-Man `i` against
every ghost. -/
def collideOuterStep (mark : DeathState)
    (coll : (Nat × Nat) × (Nat × Nat) → (Nat × Nat) × (Nat × Nat) → Bool)
    (b : Bool) (acc : List ObjectInfo) (i : Nat) : List ObjectInfo :=
  match acc.get? i with
  | none => acc
  | some oi =>
    if oi.obj.kind = ObjectKind.pacman then
      (List.range acc.length).foldl
        (collideInnerStep mark coll b (posnext oi) i) acc
    else acc

def collidePhase (mark : DeathState)
    (coll : (Nat × Nat) × (Nat × Nat) → (Nat × Nat) × (Nat × Nat) → Bool)
    (b : Bool) (objs : List ObjectInfo) : List ObjectInfo :=
  (List.range objs.length).foldl (collideOuterStep mark coll b) objs

/-- End-cell collision test of phase 2:
`pacman_pos == ghost_pos` on the staged next positions. -/
def endCollides (p g : (Nat × Nat) × (Nat × Nat)) : Bool :=
  decide (p.2 = g.2)

/-- Swap collision test of phase 3:
`pacman_pos == old_ghost_pos && old_pacman_pos == ghost_pos`. -/
def swapCollides (p g : (Nat × Nat) × (Nat × Nat)) : Bool :=
  decide (p.2 = g.1 ∧ p.1 = g.2)

/-- Phase 2 of `Evaluator::prepare_moves`: end-cell collisions, marking
`DiesAtEnd`. -/
def phase2 (b : Bool) (objs : List ObjectInfo) : List ObjectInfo :=
  collidePhase DeathState.diesAtEnd endCollides b objs

/-- Phase 3 of `Evaluator::prepare_moves`: swap collisions, marking
`DiesInMiddle`. -/
def phase3 (b : Bool) (objs : List ObjectInfo) : List ObjectInfo :=
  collidePhase DeathState.diesInMiddle swapCollides b objs

/-- Inner loop of phase 4: look for the first Berry at the Pac-Man's
staged position, mark it `DiesAtEnd` and stop (the `break`). -/
def phase4Inner (pacPos : Nat × Nat) : List ObjectInfo → List Nat → List ObjectInfo
  | objs, [] => objs
  | objs, j :: js =>
    match objs.get? j with
    | none => phase4Inner pacPos objs js
    | some oj =>
      if oj.obj.kind = ObjectKind.berry ∧ pacPos = (oj.obj.row, oj.obj.col) then
        setDeath objs j DeathState.diesAtEnd
      else
        phase4Inner pacPos objs js

/-- The outer-loop body of phase 4: a still-alive Pac-Man consumes the
first berry at its staged position. -/
def phase4Step (acc : List ObjectInfo) (i : Nat) : List ObjectInfo :=
  match acc.get? i with
  | none => acc
  | some oi =>
    if oi.obj.kind = ObjectKind.pacman ∧ oi.obj.state = DeathState.alive then
      phase4Inner (oi.next_row, oi.next_col) acc (List.range acc.length)
    else acc

/-- Phase 4 of `Evaluator::prepare_moves`: berry consumption by each
still-alive Pac-Man. -/
def phase4 (objs : List ObjectInfo) : List ObjectInfo :=
  (List.range objs.length).foldl phase4Step objs

/-- `Evaluator::prepare_moves` (list-level): phase 1, then the
`is_berry_taken` sample, then phases 2-4 all using that sample. -/
def prepareMovesL (cells : List (List Cell)) (pprog gprog : Program)
    (objs : List ObjectInfo) : List ObjectInfo :=
  let objs := phase1 cells pprog gprog objs
  let b := isBerryTakenL objs
  let objs := phase2 b objs
  let objs := phase3 b objs
  phase4 objs

/-- The evaluator (`evaluator::Evaluator`). -/
structure Evaluator where
  cells : List (List Cell)
  objects : List ObjectInfo
  pacman_program : Program
  ghost_program : Program
  deriving DecidableEq, Repr

/-- `Evaluator::get_step`. -/
def Evaluator.get_step (e : Evaluator) : Step :=
  { objects := e.objects.map (fun o => o.obj) }

/-- `Evaluator::cleanup_objects` (phase 0). -/
def Evaluator.cleanup_objects (e : Evaluator) : Evaluator :=
  { e with objects := e.objects.filter (fun o => decide (o.obj.state = DeathState.alive)) }

/-- `Evaluator::prepare_moves`. -/
def Evaluator.prepare_moves (e : Evaluator) : Evaluator :=
  { e with objects := prepareMovesL e.cells e.pacman_program e.ghost_program e.objects }

/-- `Evaluator::finish_moves` (phase 6, the commit). -/
def Evaluator.finish_moves (e : Evaluator) : Evaluator :=
  { e with objects := e.objects.map (fun o =>
      { o with obj := { o.obj with row := o.next_row, col := o.next_col } }) }

/-- `Evaluator::is_victory`. -/
def Evaluator.is_victory (e : Evaluator) : Bool :=
  decide (e.objects.length = 1) &&
  (match e.objects.get? 0 with
   | some o => decide (o.obj.kind = ObjectKind.pacman)
   | none => false)

/-- `Evaluator::is_defeat`. -/
def Evaluator.is_defeat (e : Evaluator) : Bool :=
  e.objects.all (fun o => decide (o.obj.kind ≠ ObjectKind.pacman))

/-- `Evaluator::is_berry_taken`. -/
def Evaluator.is_berry_taken (e : Evaluator) : Bool :=
  isBerryTakenL e.objects

/-- `Evaluator::get_cell`. -/
def Evaluator.get_cell (e : Evaluator) (row col : Nat) : RuleCell :=
  getCell e.cells e.objects row col

/-- `Evaluator::pick_move`. -/
def Evaluator.pick_move (e : Evaluator) (program : Program) (state : RuleState)
    (row col : Nat) : RuleState × Move :=
  pickMove e.cells e.objects program state row col

/-- The evaluator after cleanup and move resolution of one tick (the
state whose snapshot `get_step` emits). -/
def Evaluator.resolved (e : Evaluator) : Evaluator :=
  e.cleanup_objects.prepare_moves

/-- The loop of `evaluate_program`, with `fuel = move_limit -
steps_taken` (so `steps_taken == move_limit` is `fuel = 0`). -/
def evalLoop (e : Evaluator) : Nat → Outcome × List Step
  | 0 => (Outcome.outOfMoves, [])
  | fuel + 1 =>
    if e.is_victory then (Outcome.success, [])
    else if e.is_defeat then (Outcome.fail, [])
    else
      let r := e.resolved
      let rest := evalLoop r.finish_moves fuel
      (rest.1, r.get_step :: rest.2)

/-- The evaluator constructed at the top of `evaluate_program`: every
object wrapped with rule state `A` and `next` position equal to its
current position. -/
def initEvaluator (level : Level) (program : Program) : Evaluator :=
  { cells := level.state.cells
    objects := level.state.objects.map (fun obj =>
      { obj := obj, state := RuleState.A, next_row := obj.row, next_col := obj.col })
    pacman_program := program
    ghost_program := level.ghost_program }

/-- `evaluator::evaluate_program`. -/
def evaluate_program (level : Level) (program : Program) (move_limit : Nat) :
    SubmissionDetails :=
  let e := initEvaluator level program
  let r := evalLoop e move_limit
  { initial_state := level.state, steps := r.2, outcome := r.1 }

/-- The evaluator state after `n` full ticks (cleanup, move resolution,
commit) of the evaluation loop. -/
def Evaluator.afterTicks (e : Evaluator) : Nat → Evaluator
  | 0 => e
  | n + 1 => (Evaluator.afterTicks e n).resolved.finish_moves

/-- Run a sequence of `submit` calls, returning each call's result
(`true` = `Ok`), in order. -/
def RateLimiter.submitResults (rl : RateLimiter) : List Int → List Bool
  | [] => []
  | t :: ts =>
    let r := rl.submit t
    r.1 :: r.2.submitResults ts

/-! ## Game registry (`pacman-core/src/lib.rs`) -/

/-- `lib::RateLimit` (the per-user limiter configuration). -/
structure RateLimitConfig where
  count : Nat
  window : Int
  deriving DecidableEq, Repr

/-- `lib::GameConfig`. -/
structure GameConfig where
  max_steps : Nat
  rate_limit : RateLimitConfig
  deriving DecidableEq, Repr

/-- `lib::UserSubmission`. -/
structure UserSubmission where
  user : String
  details : SubmissionDetails
  deriving DecidableEq, Repr

/-- Modelled from the spec: the per-user score carrying the speed
penalty.  `lib.rs` calls a four-argument
`Scoreboard::add_user_evaluation(user, time, size, speed)`; the
scoreboard definition with a speed penalty is not among the sources
(`scoreboard.rs` holds only the three-field variant), so its state is
taken from spec section 4.4: `(solved, time_penalty, size_penalty,
speed_penalty)`. -/
structure UserScoreSpeed where
  solved_levels : Nat
  time_penalty : Int
  size_penalty : Nat
  speed_penalty : Nat
  deriving DecidableEq, Repr

/-- Modelled from the spec: the scoreboard state used by the game
registry (see `UserScoreSpeed`). -/
structure SpeedScoreboard where
  user_scores : List (String × UserScoreSpeed)
  deriving DecidableEq, Repr

/-- Modelled from the spec: `add_user_evaluation(user, time, size,
speed)` — "If the user has no record, insert with `solved = 1` and the
three penalties.  Otherwise — within a single level — leave `solved` at
1 and take the elementwise minimum over `(time_penalty, size_penalty,
speed_penalty)`." -/
def SpeedScoreboard.add_user_evaluation (sb : SpeedScoreboard) (user : String)
    (time : Int) (size speed : Nat) : SpeedScoreboard :=
  match sb.user_scores.lookup user with
  | none =>
    { user_scores := sb.user_scores ++
        [(user, { solved_levels := 1, time_penalty := time,
                  size_penalty := size, speed_penalty := speed })] }
  | some _ =>
    { user_scores := sb.user_scores.map (fun p =>
        if p.1 = user then
          (p.1, { p.2 with
            time_penalty := min p.2.time_penalty time
            size_penalty := min p.2.size_penalty size
            speed_penalty := min p.2.speed_penalty speed })
        else p) }

/-- Store a user's limiter back into the limiter map
(`self.limiters.entry(user).or_insert_with(...)` semantics). -/
def updateLimiter (l : List (String × RateLimiter)) (user : String)
    (rl : RateLimiter) : List (String × RateLimiter) :=
  match l.lookup user with
  | some _ => l.map (fun p => if p.1 = user then (p.1, rl) else p)
  | none => l ++ [(user, rl)]

/-- `lib::PacmanGame`. -/
structure PacmanGame where
  global_scores : SpeedScoreboard
  level_scores : SpeedScoreboard
  current_level : Level
  limiters : List (String × RateLimiter)
  is_level_closed : Bool
  config : GameConfig
  level_start : Int
  submissions : List UserSubmission
  deriving DecidableEq, Repr

/-- `PacmanGame::submit_program`.  Timestamps are in seconds, so
`(now - self.level_start).num_seconds()` is plain subtraction, and
`details.steps.len().saturating_sub(1)` is `Nat` subtraction. -/
def PacmanGame.submit_program (g : PacmanGame) (user : String)
    (program : Program) (now : Int) : SubmitResponse × PacmanGame :=
  if g.is_level_closed then
    (SubmitResponse.levelClosed, g)
  else
    let limiter := (g.limiters.lookup user).getD
      (RateLimiter.mk_new g.config.rate_limit.count g.config.rate_limit.window)
    let r := limiter.submit now
    let g1 := { g with limiters := updateLimiter g.limiters user r.2 }
    if r.1 then
      let details := evaluate_program g1.current_level program g1.config.max_steps
      let g2 :=
        if details.outcome = Outcome.success then
          { g1 with level_scores := (g1.level_scores.add_user_evaluation user
              (now - g1.level_start) program.rules.length (details.steps.length - 1)) }
        else g1
      (SubmitResponse.ok,
        { g2 with submissions := g2.submissions ++ [{ user := user, details := details }] })
    else
      (SubmitResponse.rateLimitExceeded, g1)

/-! ## Concrete fixtures and statement helpers -/

/-- The walk-to-berry level: a 1 by 3 all-empty grid, one Pac-Man at
(0,0), one Berry at (0,2), and an empty ghost program. -/
def walkLevel : Level :=
  { state :=
    { cells := [[Cell.empty, Cell.empty, Cell.empty]]
      objects :=
        [{ id := 0, row := 0, col := 0, current_move := Move.wait,
           intended_move := Move.wait, state := DeathState.alive,
           kind := ObjectKind.pacman },
         { id := 1, row := 0, col := 2, current_move := Move.wait,
           intended_move := Move.wait, state := DeathState.alive,
           kind := ObjectKind.berry }] }
    ghost_program := { rules := [] } }

/-- The program with the single unconditional rule "move Right". -/
def alwaysRight : Program :=
  { rules := [{ current_state := none, up := none, down := none, left := none,
                right := none, berry := none, next_move := Move.right,
                next_state := RuleState.A }] }

/-- A 1×2 strip where a Pac-Man steps right onto a waiting ghost's
cell: an end-cell collision with no berry on the level. -/
def chaseLevelCells : List (List Cell) := [[Cell.empty, Cell.empty]]

/-- The chase fixture's objects at tick start. -/
def chaseObjects : List ObjectInfo :=
  [ObjectInfo.mk (Object.mk 0 0 0 Move.wait Move.wait DeathState.alive
    ObjectKind.pacman) RuleState.A 0 0,
   ObjectInfo.mk (Object.mk 1 0 1 Move.wait Move.wait DeathState.alive
    ObjectKind.ghost) RuleState.A 0 1]

/-- The chase fixture's Pac-Man after move selection: moving right,
staged onto `(0, 1)`. -/
def chasePac1 : ObjectInfo :=
  ObjectInfo.mk (Object.mk 0 0 0 Move.right Move.right DeathState.alive
    ObjectKind.pacman) RuleState.A 0 1

/-- The chase fixture's ghost after move selection: waiting on
`(0, 1)`. -/
def chaseGhost1 : ObjectInfo :=
  ObjectInfo.mk (Object.mk 1 0 1 Move.wait Move.wait DeathState.alive
    ObjectKind.ghost) RuleState.A 0 1

/-- The fields of an object that the move-resolution phases never
write: position and kind. -/
def frameOf (L : List ObjectInfo) : List (Nat × Nat × ObjectKind) :=
  L.map (fun o => (o.obj.row, o.obj.col, o.obj.kind))

/-- The object-free reading of a cell: `Wall` or `Empty` from the grid,
with out-of-bounds read as `Wall` (the last two arms of the `match` in
`Evaluator::get_cell`). -/
def staticRuleCell (cells : List (List Cell)) (row col : Nat) : RuleCell :=
  match getStatic cells row col with
  | Cell.wall => RuleCell.wall
  | Cell.empty => RuleCell.empty

/-- The first three arms of the `match` in `Evaluator::get_cell`: an
occupied cell reports the (maximal) object kind. -/
def ruleCellOfKind : ObjectKind → RuleCell
  | ObjectKind.pacman => RuleCell.pacman
  | ObjectKind.ghost => RuleCell.ghost
  | ObjectKind.berry => RuleCell.berry

/-- `B` agrees with `A` except that the objects at indices satisfying
`cond` have their death state replaced by `mark` (the effect shape of
the collision phases). -/
def MapsIf (mark : DeathState) (cond : Nat → Bool) (A B : List ObjectInfo) : Prop :=
  ∀ k, B.get? k = (A.get? k).map (fun o => if cond k then withDeath o mark else o)

/-- The object at index `i` exists and has kind `k`. -/
def isKindAt (L : List ObjectInfo) (k : ObjectKind) (i : Nat) : Bool :=
  match L.get? i with
  | some o => decide (o.obj.kind = k)
  | none => false

/-- The collision test `coll` holds between the objects at indices `i`
and `j` (both must exist). -/
def collAt (coll : (Nat × Nat) × (Nat × Nat) → (Nat × Nat) × (Nat × Nat) → Bool)
    (L : List ObjectInfo) (i j : Nat) : Bool :=
  match L.get? i, L.get? j with
  | some oi, some oj => coll (posnext oi) (posnext oj)
  | _, _ => false

/-- The collision test against a fixed Pac-Man snapshot `pc` and the
object at index `j`. -/
def collPcAt (coll : (Nat × Nat) × (Nat × Nat) → (Nat × Nat) × (Nat × Nat) → Bool)
    (pc : (Nat × Nat) × (Nat × Nat)) (L : List ObjectInfo) (j : Nat) : Bool :=
  match L.get? j with
  | some oj => coll pc (posnext oj)
  | none => false

/-- A collision phase with flag `b = true` marks exactly the ghosts hit
by some Pac-Man among the first `m` outer indices. -/
def ghostMarkedUpTo (coll : (Nat × Nat) × (Nat × Nat) → (Nat × Nat) × (Nat × Nat) → Bool)
    (L : List ObjectInfo) (m k : Nat) : Bool :=
  isKindAt L ObjectKind.ghost k &&
    (List.range m).any (fun i => isKindAt L ObjectKind.pacman i && collAt coll L i k)

/-- A collision phase with flag `b = false` marks exactly the Pac-Men
among the first `m` outer indices that hit some ghost. -/
def pacMarkedUpTo (coll : (Nat × Nat) × (Nat × Nat) → (Nat × Nat) × (Nat × Nat) → Bool)
    (L : List ObjectInfo) (m k : Nat) : Bool :=
  isKindAt L ObjectKind.pacman k && decide (k < m) &&
    (List.range L.length).any (fun j => isKindAt L ObjectKind.ghost j && collAt coll L k j)

/-- `B` agrees with `A` except that some berries may have been marked
`DiesAtEnd` (the effect shape of berry consumption, phase 4). -/
def BerryMarks (A B : List ObjectInfo) : Prop :=
  ∀ k, B.get? k = A.get? k ∨
    ∃ o, A.get? k = some o ∧ o.obj.kind = ObjectKind.berry ∧
      B.get? k = some (withDeath o DeathState.diesAtEnd)

/-! ## Theorems: rate limiter (claims C4, C5) -/

theorem minEntry_eq_none {l : List Int} (h : minEntry l = none) : l = [] := by
  cases l with
  | nil => rfl
  | cons x xs =>
    exfalso
    cases hm : minEntry xs with
    | none => simp [minEntry, hm] at h
    | some p =>
      obtain ⟨i, v⟩ := p
      by_cases hx : x ≤ v <;> simp [minEntry, hm, hx] at h

theorem minEntry_spec : ∀ (l : List Int) (i : Nat) (v : Int),
    minEntry l = some (i, v) → l.get? i = some v ∧ ∀ x ∈ l, v ≤ x := by
  intro l
  induction l with
  | nil => intro i v h; simp [minEntry] at h
  | cons x xs ih =>
    intro i v h
    cases hm : minEntry xs with
    | none =>
      have hxs : xs = [] := minEntry_eq_none hm
      subst hxs
      simp only [minEntry] at h
      obtain ⟨hi, hv⟩ : 0 = i ∧ x = v := by
        simpa using h
      subst hi; subst hv
      refine ⟨rfl, ?_⟩
      intro y hy
      simp at hy
      omega
    | some p =>
      obtain ⟨i0, v0⟩ := p
      obtain ⟨hg, hall⟩ := ih i0 v0 hm
      by_cases hx : x ≤ v0
      · simp only [minEntry, hm, if_pos hx] at h
        obtain ⟨hi, hv⟩ : 0 = i ∧ x = v := by simpa using h
        subst hi; subst hv
        refine ⟨rfl, ?_⟩
        intro y hy
        rcases List.mem_cons.1 hy with hy | hy
        · omega
        · exact le_trans hx (hall y hy)
      · simp only [minEntry, hm, if_neg hx] at h
        obtain ⟨hi, hv⟩ : i0 + 1 = i ∧ v0 = v := by simpa using h
        subst hi; subst hv
        refine ⟨hg, ?_⟩
        intro y hy
        rcases List.mem_cons.1 hy with hy | hy
        · omega
        · exact hall y hy

/-- Claim C4: `RateLimiter::submit(time)` appends `time` and returns
`Ok` whenever fewer than `max` timestamps are stored; otherwise, with
`t_min` the oldest stored timestamp, it replaces `t_min` with `time`
and returns `Ok` iff `t_min + window < time` holds strictly, returning
`Exceeded` with the entries unchanged otherwise; and the concrete run
with `max = 2`, `window = 10` at `t = 0, 1, 2, 12, 13` yields
`Ok, Ok, Exceeded, Ok, Ok`. -/
theorem c4_rate_limiter_submit (rl : RateLimiter) (t : Int)
    (hmax : 1 ≤ rl.max_submissions) :
    (rl.entries.length < rl.max_submissions →
      rl.submit t = (true, { rl with entries := rl.entries ++ [t] })) ∧
    (¬ rl.entries.length < rl.max_submissions →
      ∃ i tmin, minEntry rl.entries = some (i, tmin) ∧
        rl.entries.get? i = some tmin ∧ (∀ x ∈ rl.entries, tmin ≤ x) ∧
        (tmin + rl.time_window < t →
          rl.submit t = (true, { rl with entries := rl.entries.set i t })) ∧
        (¬ tmin + rl.time_window < t → rl.submit t = (false, rl))) ∧
    (RateLimiter.mk_new 2 10).submitResults [0, 1, 2, 12, 13] =
      [true, true, false, true, true] := by
  refine ⟨?_, ?_, by decide⟩
  · intro h
    simp [RateLimiter.submit, h]
  · intro h
    cases hm : minEntry rl.entries with
    | none =>
      exfalso
      have : rl.entries = [] := minEntry_eq_none hm
      rw [this] at h
      simp at h
      omega
    | some p =>
      obtain ⟨i, tmin⟩ := p
      obtain ⟨hg, hall⟩ := minEntry_spec _ _ _ hm
      refine ⟨i, tmin, rfl, hg, hall, ?_, ?_⟩
      · intro hlt
        simp [RateLimiter.submit, h, hm, hlt]
      · intro hlt
        simp [RateLimiter.submit, h, hm, hlt]

/-- Witness for C4 at a concrete limiter with a full entry list. -/
theorem c4_rate_limiter_submit_witness :
    1 ≤ (2 : Nat) ∧
    (RateLimiter.mk 2 10 [5, 7]).submit 20 =
      (true, RateLimiter.mk 2 10 [20, 7]) := by
  refine ⟨by decide, ?_⟩
  have h := (c4_rate_limiter_submit (RateLimiter.mk 2 10 [5, 7]) 20 (by decide)).2.1
    (by decide)
  obtain ⟨i, tmin, hm, -, -, hok, -⟩ := h
  have hi : i = 0 ∧ tmin = 5 := by
    have h05 : minEntry [(5 : Int), 7] = some (0, 5) := by decide
    rw [h05] at hm
    have := Option.some.inj hm
    exact ⟨(congrArg Prod.fst this).symm, (congrArg Prod.snd this).symm⟩
  obtain ⟨h0, h5⟩ := hi
  subst h0; subst h5
  simpa using hok (by decide)

theorem perm_get_cons_eraseIdx :
    ∀ (l : List Int) (i : Nat) (v : Int), l.get? i = some v →
      l.Perm (v :: l.eraseIdx i) := by
  intro l
  induction l with
  | nil => intro i v h; simp at h
  | cons a t ih =>
    intro i v h
    cases i with
    | zero =>
      simp at h
      subst h
      simp [List.eraseIdx]
    | succ i =>
      simp only [List.get?_cons_succ] at h
      have h1 := (ih i v h).cons a
      exact h1.trans (List.Perm.swap v a _)

theorem perm_set_cons_eraseIdx :
    ∀ (l : List Int) (i : Nat) (x : Int), i < l.length →
      (l.set i x).Perm (x :: l.eraseIdx i) := by
  intro l
  induction l with
  | nil => intro i x h; simp at h
  | cons a t ih =>
    intro i x h
    cases i with
    | zero => simp [List.set, List.eraseIdx]
    | succ i =>
      simp only [List.length_cons, Nat.succ_lt_succ_iff] at h
      have := (ih i x h).cons a
      refine this.trans (List.Perm.swap x a _)

theorem countP_le_of_far_apart (p : Int → Bool) :
    ∀ (l : List Int) (m : Nat),
      (∀ i j, j < l.length → i + m ≤ j →
        p (l.getD i 0) = true → p (l.getD j 0) = true → False) →
      l.countP p ≤ m := by
  intro l
  induction l with
  | nil => intro m _; simp
  | cons x t ih =>
    intro m h
    by_cases hx : p x = true
    · cases m with
      | zero =>
        exact absurd hx (fun hpx =>
          h 0 0 (by simp) (by omega) (by simpa using hpx) (by simpa using hpx))
      | succ m' =>
        have ht : t.countP p ≤ m' := by
          apply ih
          intro i j hj hij _ hpj
          exact h 0 (j + 1) (by simp; omega) (by omega) (by simpa using hx)
            (by simpa using hpj)
        rw [List.countP_cons_of_pos p t hx]
        omega
    · rw [List.countP_cons_of_neg p t hx]
      refine le_trans (ih m ?_) le_rfl
      intro i j hj hij hpi hpj
      exact h (i + 1) (j + 1) (by simp; omega) (by omega) (by simpa using hpi)
        (by simpa using hpj)

theorem sorted_getD_le (l : List Int) (hs : l.Pairwise (· ≤ ·)) (i j : Nat)
    (hij : i ≤ j) (hj : j < l.length) : l.getD i 0 ≤ l.getD j 0 := by
  rcases eq_or_lt_of_le hij with rfl | hlt
  · exact le_rfl
  · have hi : i < l.length := lt_trans hlt hj
    have := List.pairwise_iff_get.1 hs ⟨i, hi⟩ ⟨j, hj⟩ hlt
    rw [List.getD_eq_getD_get?, List.getD_eq_getD_get?,
      List.get?_eq_get hi, List.get?_eq_get hj]
    simpa using this

theorem sorted_gap_interval_count (l : List Int) (m : Nat) (w lo hi : Int)
    (hs : l.Pairwise (· ≤ ·))
    (hgap : ∀ k, k + m < l.length → l.getD k 0 + w < l.getD (k + m) 0)
    (hw : hi ≤ lo + w) :
    l.countP (fun x => decide (lo ≤ x ∧ x ≤ hi)) ≤ m := by
  apply countP_le_of_far_apart
  intro i j hj hij hpi hpj
  simp only [decide_eq_true_eq] at hpi hpj
  have him : i + m < l.length := lt_of_le_of_lt hij hj
  have h1 := hgap i him
  have h2 := sorted_getD_le l hs (i + m) j hij hj
  omega

theorem submitRun_sublist :
    ∀ (ts : List Int) (rl : RateLimiter), (rl.submitRun ts).Sublist ts := by
  intro ts
  induction ts with
  | nil => intro rl; simp [RateLimiter.submitRun]
  | cons t ts' ih =>
    intro rl
    by_cases h : (rl.submit t).1
    · simpa [RateLimiter.submitRun, h] using List.Sublist.cons₂ t (ih _)
    · simpa [RateLimiter.submitRun, h] using List.Sublist.cons t (ih _)

theorem submitRun_gap (max : Nat) (w : Int) :
    ∀ (ts adm entries : List Int),
      1 ≤ max →
      (adm ++ ts).Pairwise (· ≤ ·) →
      entries.Perm (adm.drop (adm.length - max)) →
      (∀ k, k + max < adm.length →
        adm.getD k 0 + w < adm.getD (k + max) 0) →
      ∀ k, k + max <
          (adm ++ (RateLimiter.mk max w entries).submitRun ts).length →
        (adm ++ (RateLimiter.mk max w entries).submitRun ts).getD k 0 + w <
        (adm ++ (RateLimiter.mk max w entries).submitRun ts).getD (k + max) 0 := by
  intro ts
  induction ts with
  | nil =>
    intro adm entries _ _ _ hgap k hk
    simpa [RateLimiter.submitRun] using hgap k (by simpa [RateLimiter.submitRun] using hk)
  | cons t ts' ih =>
    intro adm entries hmax hsort hperm hgap
    have hlenS : entries.length = adm.length - (adm.length - max) := by
      have := hperm.length_eq
      rwa [List.length_drop] at this
    by_cases hlen : entries.length < max
    · -- room left: append
      have hadm : adm.length < max := by omega
      have hstep : (RateLimiter.mk max w entries).submit t =
          (true, RateLimiter.mk max w (entries ++ [t])) := by
        simp [RateLimiter.submit, hlen]
      have hrun : (RateLimiter.mk max w entries).submitRun (t :: ts') =
          t :: (RateLimiter.mk max w (entries ++ [t])).submitRun ts' := by
        simp [RateLimiter.submitRun, hstep]
      rw [hrun, show adm ++ t :: (RateLimiter.mk max w (entries ++ [t])).submitRun ts'
        = (adm ++ [t]) ++ (RateLimiter.mk max w (entries ++ [t])).submitRun ts' by simp]
      apply ih (adm ++ [t]) (entries ++ [t]) hmax
      · simpa using hsort
      · have h0 : (adm ++ [t]).length - max = 0 := by simp; omega
        rw [h0, List.drop_zero]
        have hperm0 : entries.Perm adm := by
          have h00 : adm.length - max = 0 := by omega
          rwa [h00, List.drop_zero] at hperm
        exact hperm0.append_right [t]
      · intro k hk
        exfalso
        simp at hk
        omega
    · -- at capacity
      cases hm : minEntry entries with
      | none =>
        exfalso
        have h0 : entries = [] := minEntry_eq_none hm
        rw [h0] at hlen
        simp at hlen
        omega
      | some p =>
        obtain ⟨i, tmin⟩ := p
        obtain ⟨hgeti, hminv⟩ := minEntry_spec _ _ _ hm
        have hadm_ge : max ≤ adm.length := by omega
        have hSlen : (adm.drop (adm.length - max)).length = max := by
          rw [List.length_drop]; omega
        obtain ⟨s0, S1, hS⟩ : ∃ s0 S1, adm.drop (adm.length - max) = s0 :: S1 := by
          cases hdrop : adm.drop (adm.length - max) with
          | nil => exfalso; rw [hdrop] at hSlen; simp at hSlen; omega
          | cons a b => exact ⟨a, b, rfl⟩
        have hadm_sorted : adm.Pairwise (· ≤ ·) :=
          List.Pairwise.sublist (List.sublist_append_left adm (t :: ts')) hsort
        have hS_sorted : (s0 :: S1).Pairwise (· ≤ ·) := by
          rw [← hS]
          exact List.Pairwise.sublist (List.drop_sublist _ _) hadm_sorted
        have htmin_mem : tmin ∈ entries := List.get?_mem hgeti
        have htmin_S : tmin ∈ s0 :: S1 := by
          rw [← hS]
          exact hperm.subset htmin_mem
        have hs0_entries : s0 ∈ entries := by
          apply hperm.symm.subset
          rw [hS]
          exact List.mem_cons_self _ _
        have htmin_eq : tmin = s0 := by
          have h1 : tmin ≤ s0 := hminv s0 hs0_entries
          have h2 : s0 ≤ tmin := by
            rcases List.mem_cons.1 htmin_S with h | h
            · omega
            · exact (List.pairwise_cons.1 hS_sorted).1 tmin h
          omega
        have hgetd : adm.get? (adm.length - max) = some s0 := by
          have h0 := congrArg (fun l => l.get? 0) hS
          simpa [List.get?_drop] using h0
        by_cases hadmit : tmin + w < t
        · -- admitted: replace the oldest
          have hstep : (RateLimiter.mk max w entries).submit t =
              (true, RateLimiter.mk max w (entries.set i t)) := by
            simp [RateLimiter.submit, hlen, hm, hadmit]
          have hrun : (RateLimiter.mk max w entries).submitRun (t :: ts') =
              t :: (RateLimiter.mk max w (entries.set i t)).submitRun ts' := by
            simp [RateLimiter.submitRun, hstep]
          rw [hrun, show adm ++ t :: (RateLimiter.mk max w (entries.set i t)).submitRun ts'
            = (adm ++ [t]) ++ (RateLimiter.mk max w (entries.set i t)).submitRun ts' by simp]
          apply ih (adm ++ [t]) (entries.set i t) hmax
          · simpa using hsort
          · -- permutation invariant
            have hd1 : (adm ++ [t]).length - max = (adm.length - max) + 1 := by
              simp; omega
            rw [hd1]
            have hdrop1 : (adm ++ [t]).drop ((adm.length - max) + 1)
                = adm.drop ((adm.length - max) + 1) ++ [t] :=
              List.drop_append_of_le_length (by omega)
            have hS1 : adm.drop ((adm.length - max) + 1) = S1 := by
              rw [← List.tail_drop, hS, List.tail_cons]
            rw [hdrop1, hS1]
            obtain ⟨hi, -⟩ := List.get?_eq_some.1 hgeti
            have p1 := perm_set_cons_eraseIdx entries i t hi
            have p2 := perm_get_cons_eraseIdx entries i tmin hgeti
            have p3 : entries.Perm (s0 :: S1) := by rw [← hS]; exact hperm
            have p4 : (tmin :: entries.eraseIdx i).Perm (s0 :: S1) := p2.symm.trans p3
            rw [htmin_eq] at p4
            have p5 : (entries.eraseIdx i).Perm S1 := p4.cons_inv
            exact (p1.trans (p5.cons t)).trans (List.perm_append_singleton t S1).symm
          · -- gap invariant for adm ++ [t]
            intro k hk
            simp only [List.length_append, List.length_singleton] at hk
            have hgetDin : ∀ j, j < adm.length →
                (adm ++ [t]).getD j 0 = adm.getD j 0 := by
              intro j hj
              rw [List.getD_eq_getD_get?, List.getD_eq_getD_get?, List.get?_append hj]
            rcases lt_or_eq_of_le (show k + max + 1 ≤ adm.length + 1 by omega) with hlt | heq
            · have hlt' : k + max < adm.length := by omega
              rw [hgetDin k (by omega), hgetDin (k + max) hlt']
              exact hgap k hlt'
            · have hkd : k = adm.length - max := by omega
              have hke : k + max = adm.length := by omega
              rw [hke, hgetDin k (by omega)]
              have hlast : (adm ++ [t]).getD adm.length 0 = t := by
                rw [List.getD_eq_getD_get?, List.get?_append_right (le_refl _)]
                simp
              rw [hlast, hkd, List.getD_eq_getD_get?, hgetd]
              simpa [htmin_eq] using hadmit
        · -- rejected: state unchanged
          have hstep : (RateLimiter.mk max w entries).submit t =
              (false, RateLimiter.mk max w entries) := by
            simp [RateLimiter.submit, hlen, hm, hadmit]
          have hrun : (RateLimiter.mk max w entries).submitRun (t :: ts') =
              (RateLimiter.mk max w entries).submitRun ts' := by
            simp [RateLimiter.submitRun, hstep]
          rw [hrun]
          apply ih adm entries hmax ?_ hperm hgap
          exact List.Pairwise.sublist
            ((List.Sublist.cons t (List.Sublist.refl ts')).append_left adm) hsort

/-- Claim C5: for every `max ≥ 1`, every window and every non-decreasing
timestamp sequence submitted to a fresh `RateLimiter`, at most `max` of
the admitted (`Ok`) calls carry timestamps inside any single interval
`[lo, hi]` of length at most `window`. -/
theorem c5_rate_limiter_window (max : Nat) (w : Int) (ts : List Int) (lo hi : Int)
    (hmax : 1 ≤ max) (hsorted : ts.Pairwise (· ≤ ·)) (hw : hi ≤ lo + w) :
    ((RateLimiter.mk_new max w).submitRun ts).countP
      (fun x => decide (lo ≤ x ∧ x ≤ hi)) ≤ max := by
  have hgap := submitRun_gap max w ts [] [] hmax (by simpa using hsorted)
    (by simp) (by intro k hk; simp at hk)
  simp only [List.nil_append] at hgap
  have hrs : ((RateLimiter.mk max w []).submitRun ts).Sublist ts :=
    submitRun_sublist ts _
  have hsortedRun : ((RateLimiter.mk max w []).submitRun ts).Pairwise (· ≤ ·) :=
    List.Pairwise.sublist hrs hsorted
  exact sorted_gap_interval_count _ max w lo hi hsortedRun hgap hw

/-- Witness for C5: `max = 1`, `window = 5`, submissions at `0, 3, 10`,
interval `[0, 5]`. -/
theorem c5_rate_limiter_window_witness :
    1 ≤ (1 : Nat) ∧ ([(0 : Int), 3, 10].Pairwise (· ≤ ·)) ∧ ((5 : Int) ≤ 0 + 5) ∧
    ((RateLimiter.mk_new 1 5).submitRun [0, 3, 10]).countP
      (fun x => decide ((0 : Int) ≤ x ∧ x ≤ 5)) ≤ 1 := by
  refine ⟨by decide, ?_, by decide, ?_⟩
  · simp
  · exact c5_rate_limiter_window 1 5 [0, 3, 10] 0 5 (by decide) (by simp) (by decide)

/-! ## Theorems: scoreboard ranking (claim C3) -/

theorem entryLe_iff {π : Type} [LinearOrder π] (a b : String × Nat × π) :
    entryLe a b = true ↔
      (b.2.1 < a.2.1 ∨ (a.2.1 = b.2.1 ∧
        (a.2.2 < b.2.2 ∨ (a.2.2 = b.2.2 ∧ b.1 ≤ a.1)))) := by
  unfold entryLe entryCmp cmpLin
  rcases lt_trichotomy a.2.1 b.2.1 with h1 | h1 | h1 <;>
    rcases lt_trichotomy a.2.2 b.2.2 with h2 | h2 | h2 <;>
      rcases lt_trichotomy a.1 b.1 with h3 | h3 | h3 <;>
        simp [h1, h2, h3, h1.le, h2.le, h3.le, lt_irrefl, le_of_lt, le_of_eq,
          Ordering.then, Ordering.swap, lt_asymm, LT.lt.not_lt, ne_of_gt, ne_of_lt,
          not_lt_of_gt, le_of_not_lt] <;>
        first
          | omega
          | exact h3
          | exact String.lt_iff_toList_lt.mp h3

theorem entryLe_trans {π : Type} [LinearOrder π] (a b c : String × Nat × π)
    (hab : entryLe a b = true) (hbc : entryLe b c = true) : entryLe a c = true := by
  rw [entryLe_iff] at hab hbc ⊢
  rcases hab with h | ⟨h1, hab2⟩
  · rcases hbc with h' | ⟨h1', _⟩
    · exact Or.inl (by omega)
    · exact Or.inl (by omega)
  · rcases hbc with h' | ⟨h1', hbc2⟩
    · exact Or.inl (by omega)
    · refine Or.inr ⟨by omega, ?_⟩
      rcases hab2 with h2 | ⟨h2, hab3⟩
      · rcases hbc2 with h2' | ⟨h2', _⟩
        · exact Or.inl (lt_trans h2 h2')
        · exact Or.inl (h2' ▸ h2)
      · rcases hbc2 with h2' | ⟨h2', hbc3⟩
        · exact Or.inl (by rw [h2]; exact h2')
        · exact Or.inr ⟨h2.trans h2', le_trans hbc3 hab3⟩

theorem entryLe_total {π : Type} [LinearOrder π] (a b : String × Nat × π) :
    (entryLe a b || entryLe b a) = true := by
  simp only [Bool.or_eq_true, entryLe_iff]
  rcases lt_trichotomy a.2.1 b.2.1 with h1 | h1 | h1
  · exact Or.inr (Or.inl h1)
  · rcases lt_trichotomy a.2.2 b.2.2 with h2 | h2 | h2
    · exact Or.inl (Or.inr ⟨h1, Or.inl h2⟩)
    · rcases le_total a.1 b.1 with h3 | h3
      · exact Or.inr (Or.inr ⟨h1.symm, Or.inr ⟨h2.symm, h3⟩⟩)
      · exact Or.inl (Or.inr ⟨h1, Or.inr ⟨h2, h3⟩⟩)
    · exact Or.inr (Or.inr ⟨h1.symm, Or.inl h2⟩)
  · exact Or.inl (Or.inl h1)

theorem perm_pair {α : Type} {l : List α} {x y : α} (h : l.Perm [x, y]) :
    l = [x, y] ∨ l = [y, x] := by
  have hlen := h.length_eq
  rcases l with - | ⟨u, - | ⟨v, - | ⟨w, tl⟩⟩⟩ <;> simp at hlen
  have hu : u = x ∨ u = y := by
    have := h.subset (List.mem_cons_self u [v])
    simpa using this
  rcases hu with hu | hu
  · left
    have h2 : ([u, v] : List α).Perm [x, y] := h
    rw [hu] at h2
    have hv := List.perm_singleton.1 h2.cons_inv
    simp at hv
    rw [hu, hv]
  · right
    have h2 : ([u, v] : List α).Perm [y, x] := h.trans (List.Perm.swap y x [])
    rw [hu] at h2
    have hv := List.perm_singleton.1 h2.cons_inv
    simp at hv
    rw [hu, hv]

/-- Claim C3, counterexample: with two users `"a"` and `"b"` tied on
`solved` and on the time penalty, the exported order violates
"remaining ties broken by username in ascending lexicographic order"
(the code's comparator reverses the username component as well). -/
theorem c3_counterexample :
    ¬ (Scoreboard.mk [("a", UserScore.mk 1 0 0), ("b", UserScore.mk 1 0 0)]).sortedTimeEntries.Pairwise
      (fun a b => b.2.1 < a.2.1 ∨ (a.2.1 = b.2.1 ∧
        (a.2.2 < b.2.2 ∨ (a.2.2 = b.2.2 ∧ a.1 ≤ b.1)))) := by
  intro hcontra
  have hperm : (Scoreboard.mk [("a", UserScore.mk 1 0 0),
      ("b", UserScore.mk 1 0 0)]).sortedTimeEntries.Perm
      [("a", 1, (0 : Int)), ("b", 1, (0 : Int))] :=
    List.mergeSort_perm _ entryLe
  have hsorted : (Scoreboard.mk [("a", UserScore.mk 1 0 0),
      ("b", UserScore.mk 1 0 0)]).sortedTimeEntries.Pairwise
      (fun a b => entryLe a b = true) :=
    @List.sorted_mergeSort _ entryLe (fun a b c => entryLe_trans a b c)
      entryLe_total _
  have hstr : ¬ ((['b'] : List Char) ≤ ['a']) := by decide
  rcases perm_pair hperm with he | he
  · rw [he] at hsorted
    have hab := (List.pairwise_cons.1 hsorted).1 _ (List.mem_singleton_self _)
    rw [entryLe_iff] at hab
    simp at hab
    exact hstr hab
  · rw [he] at hcontra
    have hba := (List.pairwise_cons.1 hcontra).1 _ (List.mem_singleton_self _)
    simp at hba
    exact hstr hba

/-- Claim C3, amended: for every scoreboard and both penalty
projections (time and size), the exported entry list is the image of
the collected tuples sorted by `solved` descending, then the projected
penalty ascending, with remaining ties broken by username in
*descending* lexicographic order (the comparator's final `.reverse()`
also reverses the username component). -/
theorem c3_scoreboard_ranking (sb : Scoreboard) (title : String) :
    ((sb.to_contract_with_time title).entries = sb.sortedTimeEntries.map (fun q =>
        { user := q.1, solved := q.2.1, tie_breaker := format_time_penalty q.2.2 }) ∧
      sb.sortedTimeEntries.Pairwise (fun a b =>
        b.2.1 < a.2.1 ∨ (a.2.1 = b.2.1 ∧
          (a.2.2 < b.2.2 ∨ (a.2.2 = b.2.2 ∧ b.1 ≤ a.1))))) ∧
    ((sb.to_contract_with_size title).entries = sb.sortedSizeEntries.map (fun q =>
        { user := q.1, solved := q.2.1, tie_breaker := toString q.2.2 }) ∧
      sb.sortedSizeEntries.Pairwise (fun a b =>
        b.2.1 < a.2.1 ∨ (a.2.1 = b.2.1 ∧
          (a.2.2 < b.2.2 ∨ (a.2.2 = b.2.2 ∧ b.1 ≤ a.1))))) := by
  refine ⟨⟨rfl, ?_⟩, ⟨rfl, ?_⟩⟩
  · exact (@List.sorted_mergeSort _ entryLe (fun a b c => entryLe_trans a b c)
      entryLe_total _).imp (fun h => (entryLe_iff _ _).1 h)
  · exact (@List.sorted_mergeSort _ entryLe (fun a b c => entryLe_trans a b c)
      entryLe_total _).imp (fun h => (entryLe_iff _ _).1 h)

/-! ## Theorems: evaluation loop shape (claims C2, C8) -/

theorem evaluate_program_outcome (level : Level) (program : Program) (limit : Nat) :
    (evaluate_program level program limit).outcome =
      (evalLoop (initEvaluator level program) limit).1 := rfl

theorem evaluate_program_steps (level : Level) (program : Program) (limit : Nat) :
    (evaluate_program level program limit).steps =
      (evalLoop (initEvaluator level program) limit).2 := rfl

theorem evalLoop_step (e : Evaluator) (fuel : Nat) (h1 : e.is_victory = false)
    (h2 : e.is_defeat = false) :
    evalLoop e (fuel + 1) =
      ((evalLoop e.resolved.finish_moves fuel).1,
        e.resolved.get_step :: (evalLoop e.resolved.finish_moves fuel).2) := by
  simp [evalLoop, h1, h2]

theorem evalLoop_victory (e : Evaluator) (fuel : Nat) (h : e.is_victory = true) :
    evalLoop e (fuel + 1) = (Outcome.success, []) := by
  simp [evalLoop, h]

theorem afterTicks_shift : ∀ (n : Nat) (e : Evaluator),
    e.afterTicks (n + 1) = (e.resolved.finish_moves).afterTicks n := by
  intro n
  induction n with
  | zero => intro e; rfl
  | succ n ih =>
    intro e
    show (e.afterTicks (n + 1)).resolved.finish_moves = _
    rw [ih e]
    rfl

theorem evalLoop_bounds : ∀ (fuel : Nat) (e : Evaluator),
    (evalLoop e fuel).2.length ≤ fuel ∧
    ((evalLoop e fuel).1 = Outcome.outOfMoves → (evalLoop e fuel).2.length = fuel) := by
  intro fuel
  induction fuel with
  | zero => intro e; exact ⟨Nat.le_refl 0, fun _ => rfl⟩
  | succ fuel ih =>
    intro e
    by_cases h1 : e.is_victory
    · rw [evalLoop_victory e fuel h1]
      exact ⟨by simp, by intro h; simp at h⟩
    · by_cases h2 : e.is_defeat
      · have hl : evalLoop e (fuel + 1) = (Outcome.fail, []) := by
          simp [evalLoop, h1, h2]
        rw [hl]
        exact ⟨by simp, by intro h; simp at h⟩
      · rw [evalLoop_step e fuel (by simpa using h1) (by simpa using h2)]
        obtain ⟨ih1, ih2⟩ := ih e.resolved.finish_moves
        exact ⟨by simpa using Nat.succ_le_succ ih1,
          by intro h; simp at h ⊢; exact ih2 h⟩

theorem evalLoop_no_terminal : ∀ (fuel : Nat) (e : Evaluator),
    (∀ n, n < fuel → (e.afterTicks n).is_victory = false ∧
      (e.afterTicks n).is_defeat = false) →
    (evalLoop e fuel).1 = Outcome.outOfMoves ∧
    (evalLoop e fuel).2.length = fuel := by
  intro fuel
  induction fuel with
  | zero => intro e _; exact ⟨rfl, rfl⟩
  | succ fuel ih =>
    intro e h
    obtain ⟨hv, hd⟩ := h 0 (Nat.succ_pos fuel)
    rw [evalLoop_step e fuel hv hd]
    have hrec := ih e.resolved.finish_moves (by
      intro n hn
      have := h (n + 1) (Nat.succ_lt_succ hn)
      rwa [afterTicks_shift n e] at this)
    exact ⟨hrec.1, by simpa using hrec.2⟩

/-- Claim C8: `evaluate_program` is total (it is defined by structural
recursion on the remaining move budget); the loop records at most
`move_limit` steps, an `OutOfMoves` outcome comes with exactly
`move_limit` recorded steps, and if no tick in the first `move_limit`
reaches victory or defeat the outcome is `OutOfMoves` with exactly
`move_limit` steps. -/
theorem c8_termination (level : Level) (program : Program) (move_limit : Nat) :
    (evaluate_program level program move_limit).steps.length ≤ move_limit ∧
    ((evaluate_program level program move_limit).outcome = Outcome.outOfMoves →
      (evaluate_program level program move_limit).steps.length = move_limit) ∧
    ((∀ n, n < move_limit →
        ((initEvaluator level program).afterTicks n).is_victory = false ∧
        ((initEvaluator level program).afterTicks n).is_defeat = false) →
      (evaluate_program level program move_limit).outcome = Outcome.outOfMoves ∧
      (evaluate_program level program move_limit).steps.length = move_limit) := by
  obtain ⟨h1, h2⟩ := evalLoop_bounds move_limit (initEvaluator level program)
  refine ⟨?_, ?_, ?_⟩
  · rw [evaluate_program_steps]
    exact h1
  · rw [evaluate_program_steps, evaluate_program_outcome]
    exact h2
  · intro h
    obtain ⟨ha, hb⟩ := evalLoop_no_terminal move_limit (initEvaluator level program) h
    constructor
    · rw [evaluate_program_outcome]
      exact ha
    · rw [evaluate_program_steps]
      exact hb

/-- Witness for C8: a 1 by 1 grid with Pac-Man and a ghost that both
wait forever, `move_limit = 2`: no victory and no defeat is ever
reached, and the run is `OutOfMoves` with exactly 2 steps. -/
theorem c8_termination_witness :
    (∀ n, n < 2 →
      ((initEvaluator walkLevel { rules := [] }).afterTicks n).is_victory = false ∧
      ((initEvaluator walkLevel { rules := [] }).afterTicks n).is_defeat = false) ∧
    (evaluate_program walkLevel { rules := [] } 2).outcome = Outcome.outOfMoves ∧
    (evaluate_program walkLevel { rules := [] } 2).steps.length = 2 := by
  refine ⟨by decide, ?_⟩
  exact (c8_termination walkLevel { rules := [] } 2).2.2 (by decide)

/-- Claim C2, counterexample: on the walk-to-berry scenario the run
takes three ticks, not two — the berry consumed in tick 2 stays in the
object list (marked `DiesAtEnd`) until the next tick's cleanup, so the
victory check at the head of iteration 3 still sees two objects.  With
`move_limit = 5` the outcome is `Success` with 3 steps (not 2), and
with `move_limit = 3` (allowed by the claim's "at least 3") the
outcome is not even `Success` but `OutOfMoves`. -/
theorem c2_counterexample :
    (evaluate_program walkLevel alwaysRight 5).outcome = Outcome.success ∧
    ¬ ((evaluate_program walkLevel alwaysRight 5).steps.length = 2) ∧
    (evaluate_program walkLevel alwaysRight 3).outcome = Outcome.outOfMoves := by
  refine ⟨by decide, by decide, by decide⟩

/-- Claim C2, amended: on the walk-to-berry scenario (1 by 3 empty
grid, Pac-Man at (0,0), Berry at (0,2), program always-Right),
`evaluate_program` returns `Success` with exactly 3 steps for every
move limit of at least 4; with move limit exactly 3 it returns
`OutOfMoves` (with 3 steps). -/
theorem c2_walk_to_berry (limit : Nat) (h : 4 ≤ limit) :
    ((evaluate_program walkLevel alwaysRight limit).outcome = Outcome.success ∧
      (evaluate_program walkLevel alwaysRight limit).steps.length = 3) ∧
    ((evaluate_program walkLevel alwaysRight 3).outcome = Outcome.outOfMoves ∧
      (evaluate_program walkLevel alwaysRight 3).steps.length = 3) := by
  refine ⟨?_, by decide, by decide⟩
  obtain ⟨k, rfl⟩ : ∃ k, limit = k + 4 := ⟨limit - 4, by omega⟩
  have step1 := evalLoop_step (initEvaluator walkLevel alwaysRight) (k + 3)
    (by decide) (by decide)
  have step2 := evalLoop_step
    (initEvaluator walkLevel alwaysRight).resolved.finish_moves (k + 2)
    (by decide) (by decide)
  have step3 := evalLoop_step
    (initEvaluator walkLevel alwaysRight).resolved.finish_moves.resolved.finish_moves
    (k + 1) (by decide) (by decide)
  have step4 := evalLoop_victory
    (initEvaluator walkLevel alwaysRight).resolved.finish_moves.resolved.finish_moves.resolved.finish_moves
    k (by decide)
  constructor
  · rw [evaluate_program_outcome]
    rw [show k + 4 = (k + 3) + 1 from rfl, step1]
    show (evalLoop _ (k + 3)).1 = Outcome.success
    rw [show k + 3 = (k + 2) + 1 from rfl, step2]
    show (evalLoop _ (k + 2)).1 = Outcome.success
    rw [show k + 2 = (k + 1) + 1 from rfl, step3]
    show (evalLoop _ (k + 1)).1 = Outcome.success
    rw [show k + 1 = k + 1 from rfl, step4]
  · rw [evaluate_program_steps]
    rw [show k + 4 = (k + 3) + 1 from rfl, step1]
    show ((evalLoop _ (k + 3)).2.length) + 1 = 3
    rw [show k + 3 = (k + 2) + 1 from rfl, step2]
    show ((evalLoop _ (k + 2)).2.length) + 1 + 1 = 3
    rw [show k + 2 = (k + 1) + 1 from rfl, step3]
    show ((evalLoop _ (k + 1)).2.length) + 1 + 1 + 1 = 3
    rw [step4]
    rfl

/-- Witness for the amended C2 at `move_limit = 4`. -/
theorem c2_walk_to_berry_witness :
    4 ≤ 4 ∧
    (((evaluate_program walkLevel alwaysRight 4).outcome = Outcome.success ∧
      (evaluate_program walkLevel alwaysRight 4).steps.length = 3) ∧
    ((evaluate_program walkLevel alwaysRight 3).outcome = Outcome.outOfMoves ∧
      (evaluate_program walkLevel alwaysRight 3).steps.length = 3)) :=
  ⟨by decide, c2_walk_to_berry 4 (by decide)⟩

/-! ## Theorems: neighborhood observation (claim C7) -/

theorem getCell_fold_filter (row col : Nat) :
    ∀ (objects : List ObjectInfo) (acc : Option ObjectKind),
      objects.foldl
        (fun acc object =>
          if object.obj.row = row ∧ object.obj.col = col then
            match acc with
            | some o => some (o.maxKind object.obj.kind)
            | none => some object.obj.kind
          else acc) acc =
      ((objects.filter (fun o => decide (o.obj.row = row ∧ o.obj.col = col))).map
        (fun o => o.obj.kind)).foldl
        (fun acc k =>
          match acc with
          | some o => some (o.maxKind k)
          | none => some k) acc := by
  intro objects
  induction objects with
  | nil => intro acc; rfl
  | cons o rest ih =>
    intro acc
    by_cases hp : o.obj.row = row ∧ o.obj.col = col
    · have hd : decide (o.obj.row = row ∧ o.obj.col = col) = true := by simpa using hp
      rw [List.foldl_cons, if_pos hp, List.filter_cons, hd, if_pos rfl,
        List.map_cons, List.foldl_cons]
      exact ih _
    · have hd : decide (o.obj.row = row ∧ o.obj.col = col) = false := by simpa using hp
      rw [List.foldl_cons, if_neg hp, List.filter_cons, hd,
        if_neg Bool.false_ne_true]
      exact ih acc

theorem kindFold_some (ks : List ObjectKind) :
    ∀ (a : ObjectKind), ∃ m,
      ks.foldl
        (fun acc k =>
          match acc with
          | some o => some (o.maxKind k)
          | none => some k) (some a) = some m ∧
      (m = a ∨ m ∈ ks) ∧ a.rank ≤ m.rank ∧ ∀ k ∈ ks, k.rank ≤ m.rank := by
  induction ks with
  | nil => intro a; exact ⟨a, rfl, Or.inl rfl, Nat.le_refl _, by simp⟩
  | cons k rest ih =>
    intro a
    obtain ⟨m, hm, hmem, hle, hall⟩ := ih (a.maxKind k)
    refine ⟨m, hm, ?_, ?_, ?_⟩
    · rcases hmem with hmem | hmem
      · unfold ObjectKind.maxKind at hmem
        by_cases hr : k.rank < a.rank
        · rw [if_pos hr] at hmem
          exact Or.inl hmem
        · rw [if_neg hr] at hmem
          exact Or.inr (by rw [hmem]; exact List.mem_cons_self _ _)
      · exact Or.inr (List.mem_cons_of_mem _ hmem)
    · refine le_trans ?_ hle
      unfold ObjectKind.maxKind
      by_cases hr : k.rank < a.rank
      · rw [if_pos hr]
      · rw [if_neg hr]
        omega
    · intro k' hk'
      rcases List.mem_cons.1 hk' with hk' | hk'
      · subst hk'
        refine le_trans ?_ hle
        unfold ObjectKind.maxKind
        by_cases hr : k'.rank < a.rank
        · rw [if_pos hr]
          omega
        · rw [if_neg hr]
      · exact hall k' hk'

/-- Claim C7: the observed value of a queried cell is the maximum kind
under `Berry < Ghost < Pacman` when one or more objects occupy the
cell; otherwise the grid's `Wall`/`Empty`, with any out-of-bounds
coordinate read as `Wall`. -/
theorem c7_observed_cell (e : Evaluator) (row col : Nat) :
    ((e.objects.filter (fun o => decide (o.obj.row = row ∧ o.obj.col = col))).map
        (fun o => o.obj.kind) = [] →
      e.get_cell row col = staticRuleCell e.cells row col ∧
      (e.cells.length ≤ row → e.get_cell row col = RuleCell.wall)) ∧
    (∀ k0 ks0,
      (e.objects.filter (fun o => decide (o.obj.row = row ∧ o.obj.col = col))).map
        (fun o => o.obj.kind) = k0 :: ks0 →
      ∃ k, k ∈ k0 :: ks0 ∧ (∀ k' ∈ k0 :: ks0, k'.rank ≤ k.rank) ∧
        e.get_cell row col = ruleCellOfKind k) := by
  constructor
  · intro hempty
    have hfold := getCell_fold_filter row col e.objects none
    rw [hempty] at hfold
    constructor
    · show getCell e.cells e.objects row col = _
      unfold getCell
      rw [hfold]
      unfold staticRuleCell
      cases getStatic e.cells row col <;> rfl
    · intro hoob
      show getCell e.cells e.objects row col = _
      unfold getCell
      rw [hfold]
      have hst : getStatic e.cells row col = Cell.wall := by
        unfold getStatic
        rw [List.get?_eq_none.2 hoob]
        rfl
      rw [hst]
      rfl
  · intro k0 ks0 hks
    have hfold := getCell_fold_filter row col e.objects none
    rw [hks] at hfold
    obtain ⟨m, hm, hmem, hle, hall⟩ := kindFold_some ks0 k0
    refine ⟨m, ?_, ?_, ?_⟩
    · rcases hmem with hmem | hmem
      · rw [hmem]; exact List.mem_cons_self _ _
      · exact List.mem_cons_of_mem _ hmem
    · intro k' hk'
      rcases List.mem_cons.1 hk' with hk' | hk'
      · subst hk'
        exact hle
      · exact hall k' hk'
    · show getCell e.cells e.objects row col = _
      unfold getCell
      rw [hfold]
      have hm' : (List.foldl
          (fun acc k =>
            match acc with
            | some o => some (o.maxKind k)
            | none => some k) none (k0 :: ks0)) = some m := hm
      rw [hm']
      cases m <;> rfl

/-- Witness for C7: a ghost standing on a berry at (0,0) of a 1 by 1
grid is observed as `Ghost`. -/
theorem c7_observed_cell_witness :
    (∃ k, k ∈ [ObjectKind.ghost, ObjectKind.berry] ∧
      (∀ k' ∈ [ObjectKind.ghost, ObjectKind.berry], k'.rank ≤ k.rank) ∧
      (Evaluator.mk [[Cell.empty]]
        [ObjectInfo.mk (Object.mk 0 0 0 Move.wait Move.wait DeathState.alive
            ObjectKind.ghost) RuleState.A 0 0,
         ObjectInfo.mk (Object.mk 1 0 0 Move.wait Move.wait DeathState.alive
            ObjectKind.berry) RuleState.A 0 0]
        (Program.mk []) (Program.mk [])).get_cell 0 0 = ruleCellOfKind k) ∧
    (Evaluator.mk [[Cell.empty]]
        [ObjectInfo.mk (Object.mk 0 0 0 Move.wait Move.wait DeathState.alive
            ObjectKind.ghost) RuleState.A 0 0,
         ObjectInfo.mk (Object.mk 1 0 0 Move.wait Move.wait DeathState.alive
            ObjectKind.berry) RuleState.A 0 0]
        (Program.mk []) (Program.mk [])).get_cell 0 0 = RuleCell.ghost :=
  ⟨(c7_observed_cell _ 0 0).2 ObjectKind.ghost [ObjectKind.berry] (by decide),
    by decide⟩

/-! ## Theorems: structure of the collision phases -/

theorem withDeath_idem (o : ObjectInfo) (d : DeathState) :
    withDeath (withDeath o d) d = withDeath o d := rfl

theorem posnext_withDeath (o : ObjectInfo) (d : DeathState) :
    posnext (withDeath o d) = posnext o := rfl

theorem kind_withDeath (o : ObjectInfo) (d : DeathState) :
    (withDeath o d).obj.kind = o.obj.kind := rfl

theorem setDeath_get?_ne (L : List ObjectInfo) (k : Nat) (d : DeathState)
    (j : Nat) (h : j ≠ k) : (setDeath L k d).get? j = L.get? j := by
  unfold setDeath
  cases hk : L.get? k with
  | none => rfl
  | some o => exact List.get?_set_ne _ _ (fun he => h he.symm)

theorem setDeath_get?_eq (L : List ObjectInfo) (k : Nat) (d : DeathState)
    (o : ObjectInfo) (h : L.get? k = some o) :
    (setDeath L k d).get? k = some (withDeath o d) := by
  unfold setDeath
  rw [h]
  have hk : k < L.length := (List.get?_eq_some.1 h).1
  rw [List.get?_set_eq]
  rw [h]
  rfl

theorem mapsIf_refl (mark : DeathState) (A : List ObjectInfo) :
    MapsIf mark (fun _ => false) A A := by
  intro k
  cases A.get? k <;> rfl

theorem mapsIf_none (mark : DeathState) (cond : Nat → Bool) (A B : List ObjectInfo)
    (h : MapsIf mark cond A B) (k : Nat) : B.get? k = none ↔ A.get? k = none := by
  rw [h k]
  cases A.get? k <;> simp

theorem mapsIf_length (mark : DeathState) (cond : Nat → Bool) (A B : List ObjectInfo)
    (h : MapsIf mark cond A B) : B.length = A.length := by
  have h1 : B.get? A.length = none := by
    rw [mapsIf_none mark cond A B h]
    exact List.get?_eq_none.2 (Nat.le_refl _)
  have h2 : A.get? B.length = none := by
    rw [← mapsIf_none mark cond A B h]
    exact List.get?_eq_none.2 (Nat.le_refl _)
  have := List.get?_eq_none.1 h1
  have := List.get?_eq_none.1 h2
  omega

theorem mapsIf_trans (mark : DeathState) (c1 c2 : Nat → Bool) (A B C : List ObjectInfo)
    (h1 : MapsIf mark c1 A B) (h2 : MapsIf mark c2 B C) :
    MapsIf mark (fun k => c1 k || c2 k) A C := by
  intro k
  rw [h2 k, h1 k]
  cases A.get? k with
  | none => rfl
  | some o =>
    simp only [Option.map_some]
    by_cases hc1 : c1 k <;> by_cases hc2 : c2 k <;>
      simp [hc1, hc2, withDeath_idem]

theorem mapsIf_congr (mark : DeathState) (c c' : Nat → Bool) (A B : List ObjectInfo)
    (h : MapsIf mark c A B)
    (hc : ∀ k o, A.get? k = some o → c k = c' k) : MapsIf mark c' A B := by
  intro k
  rw [h k]
  cases hk : A.get? k with
  | none => rfl
  | some o => rw [hc k o hk]

theorem mapsIf_setDeath (mark : DeathState) (B : List ObjectInfo) (k0 : Nat)
    (o : ObjectInfo) (h : B.get? k0 = some o) :
    MapsIf mark (fun k => decide (k = k0)) B (setDeath B k0 mark) := by
  intro k
  by_cases hk : k = k0
  · subst hk
    rw [setDeath_get?_eq B k mark o h, h]
    simp
  · rw [setDeath_get?_ne B k0 mark k hk]
    have hd : decide (k = k0) = false := by simpa using hk
    simp only [hd]
    cases B.get? k <;> rfl

theorem mapsIf_kind (mark : DeathState) (cond : Nat → Bool) (A B : List ObjectInfo)
    (h : MapsIf mark cond A B) (k : Nat) (κ : ObjectKind) :
    isKindAt B κ k = isKindAt A κ k := by
  unfold isKindAt
  rw [h k]
  cases A.get? k with
  | none => rfl
  | some o => by_cases hc : cond k <;> simp [hc, kind_withDeath]

theorem mapsIf_posnext (mark : DeathState) (cond : Nat → Bool) (A B : List ObjectInfo)
    (h : MapsIf mark cond A B) (k : Nat) :
    (B.get? k).map posnext = (A.get? k).map posnext := by
  rw [h k]
  cases A.get? k with
  | none => rfl
  | some o => by_cases hc : cond k <;> simp [hc, posnext_withDeath]

theorem mapsIf_collPc (mark : DeathState) (cond : Nat → Bool) (A B : List ObjectInfo)
    (h : MapsIf mark cond A B)
    (coll : (Nat × Nat) × (Nat × Nat) → (Nat × Nat) × (Nat × Nat) → Bool)
    (pc : (Nat × Nat) × (Nat × Nat)) (k : Nat) :
    collPcAt coll pc B k = collPcAt coll pc A k := by
  unfold collPcAt
  rw [h k]
  cases A.get? k with
  | none => rfl
  | some o => by_cases hc : cond k <;> simp [hc, posnext_withDeath]


theorem mapsIf_get?_some (mark : DeathState) (cond : Nat → Bool)
    (A B : List ObjectInfo) (h : MapsIf mark cond A B) (k : Nat) (o : ObjectInfo)
    (hk : A.get? k = some o) :
    ∃ oq, B.get? k = some oq ∧ oq.obj.kind = o.obj.kind ∧
      posnext oq = posnext o ∧ (oq = o ∨ oq = withDeath o mark) := by
  have h1 := h k
  rw [hk] at h1
  by_cases hc : cond k = true
  · refine ⟨withDeath o mark, ?_, rfl, rfl, Or.inr rfl⟩
    rw [h1]
    simp [hc]
  · refine ⟨o, ?_, rfl, rfl, Or.inl rfl⟩
    rw [h1]
    simp [hc]

theorem collideInnerStep_none (mark : DeathState)
    (coll : (Nat × Nat) × (Nat × Nat) → (Nat × Nat) × (Nat × Nat) → Bool)
    (b : Bool) (pc : (Nat × Nat) × (Nat × Nat)) (i : Nat)
    (acc2 : List ObjectInfo) (j : Nat) (h : acc2.get? j = none) :
    collideInnerStep mark coll b pc i acc2 j = acc2 := by
  unfold collideInnerStep
  rw [h]

theorem collideInnerStep_some (mark : DeathState)
    (coll : (Nat × Nat) × (Nat × Nat) → (Nat × Nat) × (Nat × Nat) → Bool)
    (b : Bool) (pc : (Nat × Nat) × (Nat × Nat)) (i : Nat)
    (acc2 : List ObjectInfo) (j : Nat) (oj : ObjectInfo)
    (h : acc2.get? j = some oj) :
    collideInnerStep mark coll b pc i acc2 j =
      (if oj.obj.kind = ObjectKind.ghost then
        if coll pc (posnext oj) then
          if b then setDeath acc2 j mark else setDeath acc2 i mark
        else acc2
      else acc2) := by
  unfold collideInnerStep
  rw [h]

theorem collideOuterStep_none (mark : DeathState)
    (coll : (Nat × Nat) × (Nat × Nat) → (Nat × Nat) × (Nat × Nat) → Bool)
    (b : Bool) (acc : List ObjectInfo) (i : Nat) (h : acc.get? i = none) :
    collideOuterStep mark coll b acc i = acc := by
  unfold collideOuterStep
  rw [h]

theorem collideOuterStep_some (mark : DeathState)
    (coll : (Nat × Nat) × (Nat × Nat) → (Nat × Nat) × (Nat × Nat) → Bool)
    (b : Bool) (acc : List ObjectInfo) (i : Nat) (oi : ObjectInfo)
    (h : acc.get? i = some oi) :
    collideOuterStep mark coll b acc i =
      (if oi.obj.kind = ObjectKind.pacman then
        (List.range acc.length).foldl
          (collideInnerStep mark coll b (posnext oi) i) acc
      else acc) := by
  unfold collideOuterStep
  rw [h]

theorem collide_inner (mark : DeathState)
    (coll : (Nat × Nat) × (Nat × Nat) → (Nat × Nat) × (Nat × Nat) → Bool)
    (b : Bool) (pc : (Nat × Nat) × (Nat × Nat)) (i : Nat) (A : List ObjectInfo)
    (hib : b = false → ∃ o, A.get? i = some o) :
    ∀ l, MapsIf mark
      (fun k =>
        if b then
          isKindAt A ObjectKind.ghost k && decide (k < l) && collPcAt coll pc A k
        else
          decide (k = i) && (List.range l).any
            (fun j => isKindAt A ObjectKind.ghost j && collPcAt coll pc A j))
      A
      ((List.range l).foldl (collideInnerStep mark coll b pc i) A) := by
  intro l
  induction l with
  | zero =>
    apply mapsIf_congr mark (fun _ => false) _ A A (mapsIf_refl mark A)
    intro k o _
    cases b <;> simp
  | succ l ih =>
    rw [List.range_succ, List.foldl_append, List.foldl_cons, List.foldl_nil]
    set Q := (List.range l).foldl (collideInnerStep mark coll b pc i) A with hQdef
    have hlt : ∀ k : Nat, k ≠ l → decide (k < l) = decide (k < l + 1) := by
      intro k hk
      have : (k < l) ↔ (k < l + 1) := by omega
      simp [this]
    cases hAl : A.get? l with
    | none =>
      have hQl : Q.get? l = none := by
        rw [ih l, hAl]
        rfl
      rw [collideInnerStep_none mark coll b pc i Q l hQl]
      apply mapsIf_congr mark _ _ A Q ih
      intro k o hk
      have hkl : k ≠ l := by
        intro he
        rw [he, hAl] at hk
        exact Option.noConfusion hk
      have hgl : isKindAt A ObjectKind.ghost l = false := by
        unfold isKindAt
        rw [hAl]
      cases b with
      | true => simp [hlt k hkl]
      | false => simp [hgl]
    | some ol =>
      obtain ⟨olq, hQl, hkq, hpq, -⟩ := mapsIf_get?_some mark _ A Q ih l ol hAl
      rw [collideInnerStep_some mark coll b pc i Q l olq hQl, hkq, hpq]
      by_cases hg : ol.obj.kind = ObjectKind.ghost
      · rw [if_pos hg]
        have hgl : isKindAt A ObjectKind.ghost l = true := by
          unfold isKindAt
          rw [hAl]
          simpa using hg
        by_cases hcoll : coll pc (posnext ol) = true
        · rw [if_pos hcoll]
          have hcl : collPcAt coll pc A l = true := by
            unfold collPcAt
            rw [hAl]
            exact hcoll
          cases b with
          | true =>
            rw [if_pos rfl]
            have hset := mapsIf_setDeath mark Q l olq hQl
            have htr := mapsIf_trans mark _ _ A Q _ ih hset
            apply mapsIf_congr mark _ _ A _ htr
            intro k o hk
            by_cases hkl : k = l
            · subst hkl
              simp [hgl, hcl]
            · have hd : decide (k = l) = false := by simpa using hkl
              rw [hd, hlt k hkl]
              simp
          | false =>
            rw [if_neg (by simp)]
            obtain ⟨oia, hoia⟩ := hib rfl
            obtain ⟨oq, hoq, -, -, -⟩ := mapsIf_get?_some mark _ A Q ih i oia hoia
            have hset := mapsIf_setDeath mark Q i oq hoq
            have htr := mapsIf_trans mark _ _ A Q _ ih hset
            apply mapsIf_congr mark _ _ A _ htr
            intro k o hk
            have hany : ((List.range l ++ [l]).any
                (fun j => isKindAt A ObjectKind.ghost j && collPcAt coll pc A j))
                = true := by
              rw [List.any_append, List.any_cons, List.any_nil]
              simp [hgl, hcl]
            by_cases hki : k = i
            · simp [hki, hany]
            · have hd : decide (k = i) = false := by simpa using hki
              simp [hd]
        · rw [if_neg hcoll]
          have hcl : collPcAt coll pc A l = false := by
            unfold collPcAt
            rw [hAl]
            simpa using hcoll
          apply mapsIf_congr mark _ _ A Q ih
          intro k o hk
          cases b with
          | true =>
            by_cases hkl : k = l
            · subst hkl
              simp [hcl]
            · simp [hlt k hkl]
          | false => simp [hcl]
      · rw [if_neg hg]
        have hgl : isKindAt A ObjectKind.ghost l = false := by
          unfold isKindAt
          rw [hAl]
          simpa using hg
        apply mapsIf_congr mark _ _ A Q ih
        intro k o hk
        cases b with
        | true =>
          by_cases hkl : k = l
          · subst hkl
            simp [hgl]
          · simp [hlt k hkl]
        | false => simp [hgl]

theorem collAt_eq_collPcAt
    (coll : (Nat × Nat) × (Nat × Nat) → (Nat × Nat) × (Nat × Nat) → Bool)
    (L : List ObjectInfo) (m j : Nat) (om : ObjectInfo)
    (h : L.get? m = some om) :
    collAt coll L m j = collPcAt coll (posnext om) L j := by
  unfold collAt collPcAt
  rw [h]
  cases L.get? j <;> rfl

theorem collide_outer (mark : DeathState)
    (coll : (Nat × Nat) × (Nat × Nat) → (Nat × Nat) × (Nat × Nat) → Bool)
    (b : Bool) (L : List ObjectInfo) :
    ∀ m, MapsIf mark
      (fun k => if b then ghostMarkedUpTo coll L m k else pacMarkedUpTo coll L m k)
      L
      ((List.range m).foldl (collideOuterStep mark coll b) L) := by
  intro m
  induction m with
  | zero =>
    apply mapsIf_congr mark (fun _ => false) _ L L (mapsIf_refl mark L)
    intro k o _
    cases b <;> simp [ghostMarkedUpTo, pacMarkedUpTo]
  | succ m ih =>
    rw [List.range_succ, List.foldl_append, List.foldl_cons, List.foldl_nil]
    set P := (List.range m).foldl (collideOuterStep mark coll b) L with hPdef
    have hlt : ∀ k : Nat, k ≠ m → decide (k < m) = decide (k < m + 1) := by
      intro k hk
      have : (k < m) ↔ (k < m + 1) := by omega
      simp [this]
    cases hLm : L.get? m with
    | none =>
      have hPm : P.get? m = none := by
        rw [ih m, hLm]
        rfl
      rw [collideOuterStep_none mark coll b P m hPm]
      apply mapsIf_congr mark _ _ L P ih
      intro k o hk
      have hkm : k ≠ m := by
        intro he
        rw [he, hLm] at hk
        exact Option.noConfusion hk
      have hpm : isKindAt L ObjectKind.pacman m = false := by
        unfold isKindAt
        rw [hLm]
      cases b with
      | true => simp [ghostMarkedUpTo, hpm, List.range_succ]
      | false => simp [pacMarkedUpTo, hlt k hkm]
    | some om =>
      obtain ⟨omq, hPm, hkq, hpq, -⟩ := mapsIf_get?_some mark _ L P ih m om hLm
      rw [collideOuterStep_some mark coll b P m omq hPm, hkq, hpq]
      by_cases hp : om.obj.kind = ObjectKind.pacman
      · rw [if_pos hp]
        have hpm : isKindAt L ObjectKind.pacman m = true := by
          unfold isKindAt
          rw [hLm]
          simpa using hp
        have hib : b = false → ∃ o, P.get? m = some o := fun _ => ⟨omq, hPm⟩
        have hInner := collide_inner mark coll b (posnext om) m P hib P.length
        have htr := mapsIf_trans mark _ _ L P _ ih hInner
        have hlen : P.length = L.length := mapsIf_length mark _ L P ih
        apply mapsIf_congr mark _ _ L _ htr
        intro k o hk
        have hkg : isKindAt P ObjectKind.ghost k = isKindAt L ObjectKind.ghost k :=
          mapsIf_kind mark _ L P ih k ObjectKind.ghost
        have hkc : collPcAt coll (posnext om) P k = collPcAt coll (posnext om) L k :=
          mapsIf_collPc mark _ L P ih coll (posnext om) k
        have hklen : decide (k < P.length) = true := by
          rw [hlen]
          simpa using (List.get?_eq_some.1 hk).1
        have hfun : (fun j => isKindAt P ObjectKind.ghost j &&
            collPcAt coll (posnext om) P j) =
            (fun j => isKindAt L ObjectKind.ghost j && collAt coll L m j) := by
          funext j
          rw [mapsIf_kind mark _ L P ih j ObjectKind.ghost,
            mapsIf_collPc mark _ L P ih coll (posnext om) j,
            collAt_eq_collPcAt coll L m j om hLm]
        have hcoll_k : collPcAt coll (posnext om) L k = collAt coll L m k :=
          (collAt_eq_collPcAt coll L m k om hLm).symm
        cases b with
        | true =>
          simp only [if_true]
          rw [hkg, hkc, hklen, hcoll_k]
          simp only [ghostMarkedUpTo, List.range_succ, List.any_append,
            List.any_cons, List.any_nil, hpm, Bool.true_and, Bool.or_false]
          cases hgk : isKindAt L ObjectKind.ghost k <;>
            cases hck : collAt coll L m k <;>
              cases hany : (List.range m).any
                (fun i => isKindAt L ObjectKind.pacman i && collAt coll L i k) <;>
                simp [ghostMarkedUpTo, hgk, hck, hany, hpm]
        | false =>
          rw [if_neg Bool.false_ne_true, hfun, hlen]
          by_cases hkm : k = m
          · subst hkm
            simp only [pacMarkedUpTo, hpm, Bool.true_and]
            have hmm : decide (k < k) = false := decide_eq_false (by omega)
            have hmm1 : decide (k < k + 1) = true := decide_eq_true (by omega)
            simp [hmm, hmm1]
          · have hd : decide (k = m) = false := by simpa using hkm
            simp [pacMarkedUpTo, hd, hlt k hkm]
      · rw [if_neg hp]
        have hpm : isKindAt L ObjectKind.pacman m = false := by
          unfold isKindAt
          rw [hLm]
          simpa using hp
        apply mapsIf_congr mark _ _ L P ih
        intro k o hk
        cases b with
        | true => simp [ghostMarkedUpTo, hpm, List.range_succ]
        | false =>
          by_cases hkm : k = m
          · subst hkm
            simp [pacMarkedUpTo, hpm]
          · simp [pacMarkedUpTo, hlt k hkm]

/-! ## Theorems: phase 1 reads only position and kind of the context -/

theorem getCell_frame (c : List (List Cell)) (A B : List ObjectInfo)
    (h : frameOf A = frameOf B) (r cl : Nat) : getCell c A r cl = getCell c B r cl := by
  unfold getCell
  have key : ∀ X : List ObjectInfo,
      X.foldl (fun acc object =>
        if object.obj.row = r ∧ object.obj.col = cl then
          match acc with
          | some o => some (o.maxKind object.obj.kind)
          | none => some object.obj.kind
        else acc) none =
      (frameOf X).foldl (fun acc f =>
        if f.1 = r ∧ f.2.1 = cl then
          match acc with
          | some o => some (o.maxKind f.2.2)
          | none => some f.2.2
        else acc) none := by
    intro X
    simp only [frameOf, List.foldl_map]
  rw [key A, key B, h]

theorem isBerryTaken_frame (A B : List ObjectInfo) (h : frameOf A = frameOf B) :
    isBerryTakenL A = isBerryTakenL B := by
  unfold isBerryTakenL
  have key : ∀ X : List ObjectInfo,
      X.all (fun o => decide (o.obj.kind ≠ ObjectKind.berry)) =
      (frameOf X).all (fun f => decide (f.2.2 ≠ ObjectKind.berry)) := by
    intro X
    induction X with
    | nil => rfl
    | cons o t ih => simp only [frameOf, List.map_cons, List.all_cons] at ih ⊢; rw [ih]
  rw [key A, key B, h]

theorem ruleMatches_frame (c : List (List Cell)) (A B : List ObjectInfo)
    (h : frameOf A = frameOf B) (s : RuleState) (r cl : Nat) (rule : Rule) :
    ruleMatches c A s r cl rule = ruleMatches c B s r cl rule := by
  unfold ruleMatches
  rw [getCell_frame c A B h (wrapSub1 r) cl, getCell_frame c A B h (wrapAdd1 r) cl,
    getCell_frame c A B h r (wrapSub1 cl), getCell_frame c A B h r (wrapAdd1 cl),
    isBerryTaken_frame A B h]

theorem pickMoveRules_frame (c : List (List Cell)) (A B : List ObjectInfo)
    (h : frameOf A = frameOf B) (s : RuleState) (r cl : Nat) :
    ∀ rules, pickMoveRules c A s r cl rules = pickMoveRules c B s r cl rules := by
  intro rules
  induction rules with
  | nil => rfl
  | cons rule rest ih =>
    unfold pickMoveRules
    rw [ruleMatches_frame c A B h s r cl rule, ih]

theorem pickMove_frame (c : List (List Cell)) (A B : List ObjectInfo)
    (h : frameOf A = frameOf B) (p : Program) (s : RuleState) (r cl : Nat) :
    pickMove c A p s r cl = pickMove c B p s r cl :=
  pickMoveRules_frame c A B h s r cl p.rules

theorem phase1Compute_frame (c : List (List Cell)) (A B : List ObjectInfo)
    (h : frameOf A = frameOf B) (p : Program) (oi : ObjectInfo) :
    phase1Compute c A p oi = phase1Compute c B p oi := by
  unfold phase1Compute
  rw [pickMove_frame c A B h p oi.state oi.obj.row oi.obj.col]

theorem phase1Compute_fields (c : List (List Cell)) (ctx : List ObjectInfo)
    (p : Program) (oi : ObjectInfo) :
    (phase1Compute c ctx p oi).obj.row = oi.obj.row ∧
    (phase1Compute c ctx p oi).obj.col = oi.obj.col ∧
    (phase1Compute c ctx p oi).obj.kind = oi.obj.kind ∧
    (phase1Compute c ctx p oi).obj.state = oi.obj.state := by
  unfold phase1Compute
  dsimp only
  split <;> exact ⟨rfl, rfl, rfl, rfl⟩

theorem list_set_self {α : Type} :
    ∀ (l : List α) (i : Nat) (v : α), l.get? i = some v → l.set i v = l := by
  intro l
  induction l with
  | nil => intro i v h; simp at h
  | cons a t ih =>
    intro i v h
    cases i with
    | zero =>
      simp at h
      rw [List.set_cons_zero, h]
    | succ i =>
      simp only [List.get?_cons_succ] at h
      rw [List.set_cons_succ, ih i v h]

theorem frame_set (L : List ObjectInfo) (i : Nat) (o o' : ObjectInfo)
    (h : L.get? i = some o)
    (hr : o'.obj.row = o.obj.row) (hc : o'.obj.col = o.obj.col)
    (hk : o'.obj.kind = o.obj.kind) :
    frameOf (L.set i o') = frameOf L := by
  unfold frameOf
  rw [List.map_set]
  apply list_set_self
  rw [List.get?_map, h]
  simp [hr, hc, hk]

theorem phase1Step_none (c : List (List Cell)) (pp gp : Program)
    (objs : List ObjectInfo) (i : Nat) (h : objs.get? i = none) :
    phase1Step c pp gp objs i = objs := by
  unfold phase1Step
  rw [h]

theorem phase1Step_some_berry (c : List (List Cell)) (pp gp : Program)
    (objs : List ObjectInfo) (i : Nat) (oi0 : ObjectInfo)
    (h : objs.get? i = some oi0) (hk : oi0.obj.kind = ObjectKind.berry) :
    phase1Step c pp gp objs i =
      objs.set i { oi0 with obj := { oi0.obj with current_move := Move.wait } } := by
  simp only [phase1Step, h, hk]

theorem phase1Step_some_pacman (c : List (List Cell)) (pp gp : Program)
    (objs : List ObjectInfo) (i : Nat) (oi0 : ObjectInfo)
    (h : objs.get? i = some oi0) (hk : oi0.obj.kind = ObjectKind.pacman) :
    phase1Step c pp gp objs i =
      (objs.set i { oi0 with obj := { oi0.obj with current_move := Move.wait } }).set i
        (phase1Compute c
          (objs.set i { oi0 with obj := { oi0.obj with current_move := Move.wait } })
          pp { oi0 with obj := { oi0.obj with current_move := Move.wait } }) := by
  simp only [phase1Step, h, hk]

theorem phase1Step_some_ghost (c : List (List Cell)) (pp gp : Program)
    (objs : List ObjectInfo) (i : Nat) (oi0 : ObjectInfo)
    (h : objs.get? i = some oi0) (hk : oi0.obj.kind = ObjectKind.ghost) :
    phase1Step c pp gp objs i =
      (objs.set i { oi0 with obj := { oi0.obj with current_move := Move.wait } }).set i
        (phase1Compute c
          (objs.set i { oi0 with obj := { oi0.obj with current_move := Move.wait } })
          gp { oi0 with obj := { oi0.obj with current_move := Move.wait } }) := by
  simp only [phase1Step, h, hk]

theorem phase1Single_berry (c : List (List Cell)) (pp gp : Program)
    (ctx : List ObjectInfo) (oi0 : ObjectInfo) (hk : oi0.obj.kind = ObjectKind.berry) :
    phase1Single c pp gp ctx oi0 =
      { oi0 with obj := { oi0.obj with current_move := Move.wait } } := by
  simp only [phase1Single, hk]

theorem phase1Single_pacman (c : List (List Cell)) (pp gp : Program)
    (ctx : List ObjectInfo) (oi0 : ObjectInfo) (hk : oi0.obj.kind = ObjectKind.pacman) :
    phase1Single c pp gp ctx oi0 =
      phase1Compute c ctx pp { oi0 with obj := { oi0.obj with current_move := Move.wait } } := by
  simp only [phase1Single, hk]

theorem phase1Single_ghost (c : List (List Cell)) (pp gp : Program)
    (ctx : List ObjectInfo) (oi0 : ObjectInfo) (hk : oi0.obj.kind = ObjectKind.ghost) :
    phase1Single c pp gp ctx oi0 =
      phase1Compute c ctx gp { oi0 with obj := { oi0.obj with current_move := Move.wait } } := by
  simp only [phase1Single, hk]

theorem phase1_upto (c : List (List Cell)) (pp gp : Program) (L : List ObjectInfo) :
    ∀ m,
      (∀ k, k < m → ((List.range m).foldl (phase1Step c pp gp) L).get? k =
        (L.get? k).map (phase1Single c pp gp L)) ∧
      (∀ k, m ≤ k → ((List.range m).foldl (phase1Step c pp gp) L).get? k = L.get? k) ∧
      frameOf ((List.range m).foldl (phase1Step c pp gp) L) = frameOf L := by
  intro m
  induction m with
  | zero => exact ⟨fun k h => absurd h (by omega), fun k _ => rfl, rfl⟩
  | succ m ih =>
    obtain ⟨h1, h2, h3⟩ := ih
    rw [List.range_succ, List.foldl_append, List.foldl_cons, List.foldl_nil]
    set P := (List.range m).foldl (phase1Step c pp gp) L with hPdef
    cases hLm : L.get? m with
    | none =>
      have hPm : P.get? m = none := by rw [h2 m (le_refl m), hLm]
      rw [phase1Step_none c pp gp P m hPm]
      refine ⟨?_, ?_, h3⟩
      · intro k hk
        rcases Nat.lt_succ_iff_lt_or_eq.1 hk with hk | hk
        · exact h1 k hk
        · subst hk
          rw [h2 k (le_refl k), hLm]
          rfl
      · intro k hk
        exact h2 k (by omega)
    | some om =>
      have hPm : P.get? m = some om := by rw [h2 m (le_refl m), hLm]
      have hmlen : m < P.length := (List.get?_eq_some.1 hPm).1
      have hframe1 : frameOf (P.set m
          { om with obj := { om.obj with current_move := Move.wait } }) = frameOf L :=
        (frame_set P m om
          { om with obj := { om.obj with current_move := Move.wait } }
          hPm rfl rfl rfl).trans h3
      cases hk : om.obj.kind with
      | berry =>
        rw [phase1Step_some_berry c pp gp P m om hPm hk]
        refine ⟨?_, ?_, hframe1⟩
        · intro k hkm1
          rcases Nat.lt_succ_iff_lt_or_eq.1 hkm1 with hkm | hkm
          · rw [List.get?_set_ne _ P (by omega), h1 k hkm]
          · subst hkm
            rw [List.get?_set_eq, hPm, hLm]
            simp [phase1Single_berry c pp gp L om hk]
        · intro k hkm1
          rw [List.get?_set_ne _ P (by omega), h2 k (by omega)]
      | pacman =>
        rw [phase1Step_some_pacman c pp gp P m om hPm hk]
        have hcomp : phase1Compute c
            (P.set m { om with obj := { om.obj with current_move := Move.wait } }) pp
            { om with obj := { om.obj with current_move := Move.wait } } =
            phase1Compute c L pp
            { om with obj := { om.obj with current_move := Move.wait } } :=
          phase1Compute_frame c _ L hframe1 pp _
        have hset1 : (P.set m
            { om with obj := { om.obj with current_move := Move.wait } }).get? m =
            some { om with obj := { om.obj with current_move := Move.wait } } := by
          rw [List.get?_set_eq, hPm]
          rfl
        refine ⟨?_, ?_, ?_⟩
        · intro k hkm1
          rcases Nat.lt_succ_iff_lt_or_eq.1 hkm1 with hkm | hkm
          · rw [List.get?_set_ne _ _ (by omega), List.get?_set_ne _ P (by omega),
              h1 k hkm]
          · subst hkm
            rw [List.get?_set_eq, hset1, hLm]
            simp [phase1Single_pacman c pp gp L om hk, hcomp]
        · intro k hkm1
          rw [List.get?_set_ne _ _ (by omega), List.get?_set_ne _ P (by omega),
            h2 k (by omega)]
        · obtain ⟨hr, hc, hkk, -⟩ := phase1Compute_fields c
            (P.set m { om with obj := { om.obj with current_move := Move.wait } }) pp
            { om with obj := { om.obj with current_move := Move.wait } }
          exact (frame_set _ m _ _ hset1 hr hc hkk).trans hframe1
      | ghost =>
        rw [phase1Step_some_ghost c pp gp P m om hPm hk]
        have hcomp : phase1Compute c
            (P.set m { om with obj := { om.obj with current_move := Move.wait } }) gp
            { om with obj := { om.obj with current_move := Move.wait } } =
            phase1Compute c L gp
            { om with obj := { om.obj with current_move := Move.wait } } :=
          phase1Compute_frame c _ L hframe1 gp _
        have hset1 : (P.set m
            { om with obj := { om.obj with current_move := Move.wait } }).get? m =
            some { om with obj := { om.obj with current_move := Move.wait } } := by
          rw [List.get?_set_eq, hPm]
          rfl
        refine ⟨?_, ?_, ?_⟩
        · intro k hkm1
          rcases Nat.lt_succ_iff_lt_or_eq.1 hkm1 with hkm | hkm
          · rw [List.get?_set_ne _ _ (by omega), List.get?_set_ne _ P (by omega),
              h1 k hkm]
          · subst hkm
            rw [List.get?_set_eq, hset1, hLm]
            simp [phase1Single_ghost c pp gp L om hk, hcomp]
        · intro k hkm1
          rw [List.get?_set_ne _ _ (by omega), List.get?_set_ne _ P (by omega),
            h2 k (by omega)]
        · obtain ⟨hr, hc, hkk, -⟩ := phase1Compute_fields c
            (P.set m { om with obj := { om.obj with current_move := Move.wait } }) gp
            { om with obj := { om.obj with current_move := Move.wait } }
          exact (frame_set _ m _ _ hset1 hr hc hkk).trans hframe1

theorem phase1_get? (c : List (List Cell)) (pp gp : Program) (L : List ObjectInfo) :
    ∀ k, (phase1 c pp gp L).get? k = (L.get? k).map (phase1Single c pp gp L) := by
  intro k
  obtain ⟨h1, h2, -⟩ := phase1_upto c pp gp L L.length
  by_cases hk : k < L.length
  · exact h1 k hk
  · rw [phase1, h2 k (by omega), List.get?_eq_none.2 (by omega : L.length ≤ k)]
    rfl

theorem phase1_frame (c : List (List Cell)) (pp gp : Program) (L : List ObjectInfo) :
    frameOf (phase1 c pp gp L) = frameOf L :=
  (phase1_upto c pp gp L L.length).2.2

/-! ## Theorems: phase 4 only marks berries -/

theorem berryMarks_refl (A : List ObjectInfo) : BerryMarks A A :=
  fun _ => Or.inl rfl

theorem berryMarks_trans {A B C : List ObjectInfo}
    (h1 : BerryMarks A B) (h2 : BerryMarks B C) : BerryMarks A C := by
  intro k
  rcases h2 k with h | ⟨o, hBo, hko, hCo⟩
  · rcases h1 k with h' | ⟨o, hAo, hko, hBo⟩
    · exact Or.inl (h.trans h')
    · exact Or.inr ⟨o, hAo, hko, by rw [h, hBo]⟩
  · rcases h1 k with h' | ⟨o', hAo', hko', hBo'⟩
    · exact Or.inr ⟨o, by rw [← h']; exact hBo, hko, hCo⟩
    · refine Or.inr ⟨o', hAo', hko', ?_⟩
      rw [hBo'] at hBo
      have ho : o = withDeath o' DeathState.diesAtEnd := (Option.some.inj hBo).symm
      rw [hCo, ho, withDeath_idem]

theorem phase4Inner_berryMarks (pos : Nat × Nat) :
    ∀ (js : List Nat) (objs : List ObjectInfo),
      BerryMarks objs (phase4Inner pos objs js) := by
  intro js
  induction js with
  | nil => intro objs; exact berryMarks_refl objs
  | cons j js ih =>
    intro objs
    cases hj : objs.get? j with
    | none =>
      have : phase4Inner pos objs (j :: js) = phase4Inner pos objs js := by
        simp only [phase4Inner, hj]
      rw [this]
      exact ih objs
    | some oj =>
      by_cases hcond : oj.obj.kind = ObjectKind.berry ∧ pos = (oj.obj.row, oj.obj.col)
      · have : phase4Inner pos objs (j :: js) = setDeath objs j DeathState.diesAtEnd := by
          simp only [phase4Inner, hj, if_pos hcond]
        rw [this]
        intro k
        by_cases hkj : k = j
        · subst hkj
          exact Or.inr ⟨oj, hj, hcond.1, setDeath_get?_eq objs k _ oj hj⟩
        · exact Or.inl (setDeath_get?_ne objs j _ k hkj)
      · have : phase4Inner pos objs (j :: js) = phase4Inner pos objs js := by
          simp only [phase4Inner, hj, if_neg hcond]
        rw [this]
        exact ih objs

theorem phase4Step_berryMarks (acc : List ObjectInfo) (i : Nat) :
    BerryMarks acc (phase4Step acc i) := by
  cases hi : acc.get? i with
  | none =>
    have : phase4Step acc i = acc := by simp only [phase4Step, hi]
    rw [this]
    exact berryMarks_refl acc
  | some oi =>
    by_cases hcond : oi.obj.kind = ObjectKind.pacman ∧ oi.obj.state = DeathState.alive
    · have : phase4Step acc i =
          phase4Inner (oi.next_row, oi.next_col) acc (List.range acc.length) := by
        simp only [phase4Step, hi, if_pos hcond]
      rw [this]
      exact phase4Inner_berryMarks _ _ acc
    · have : phase4Step acc i = acc := by simp only [phase4Step, hi, if_neg hcond]
      rw [this]
      exact berryMarks_refl acc

theorem phase4_berryMarks (objs : List ObjectInfo) : BerryMarks objs (phase4 objs) := by
  unfold phase4
  generalize List.range objs.length = l
  induction l generalizing objs with
  | nil => exact berryMarks_refl objs
  | cons i l ih =>
    rw [List.foldl_cons]
    exact berryMarks_trans (phase4Step_berryMarks objs i) (ih (phase4Step objs i))

theorem berryMarks_get?_of_ne_berry {A B : List ObjectInfo} (h : BerryMarks A B)
    {k : Nat} {o : ObjectInfo} (hk : A.get? k = some o)
    (hko : o.obj.kind ≠ ObjectKind.berry) : B.get? k = some o := by
  rcases h k with h' | ⟨o', hAo', hko', hBo'⟩
  · rw [h', hk]
  · rw [hk] at hAo'
    exact absurd ((Option.some.inj hAo') ▸ hko') hko

theorem berryMarks_get?_some {A B : List ObjectInfo} (h : BerryMarks A B)
    {k : Nat} {o : ObjectInfo} (hk : A.get? k = some o) :
    ∃ o', B.get? k = some o' ∧
      (o' = o ∨ o' = withDeath o DeathState.diesAtEnd) := by
  rcases h k with h' | ⟨o', hAo', hko', hBo'⟩
  · exact ⟨o, by rw [h', hk], Or.inl rfl⟩
  · rw [hk] at hAo'
    have := Option.some.inj hAo'
    subst this
    exact ⟨withDeath o DeathState.diesAtEnd, hBo', Or.inr rfl⟩

theorem phase1Single_fields (c : List (List Cell)) (pp gp : Program)
    (ctx : List ObjectInfo) (oi : ObjectInfo) :
    (phase1Single c pp gp ctx oi).obj.row = oi.obj.row ∧
    (phase1Single c pp gp ctx oi).obj.col = oi.obj.col ∧
    (phase1Single c pp gp ctx oi).obj.kind = oi.obj.kind ∧
    (phase1Single c pp gp ctx oi).obj.state = oi.obj.state := by
  cases hk : oi.obj.kind with
  | berry =>
    rw [phase1Single_berry c pp gp ctx oi hk]
    exact ⟨rfl, rfl, hk, rfl⟩
  | pacman =>
    rw [phase1Single_pacman c pp gp ctx oi hk]
    obtain ⟨h1, h2, h3, h4⟩ := phase1Compute_fields c ctx pp
      { oi with obj := { oi.obj with current_move := Move.wait } }
    exact ⟨h1, h2, h3.trans hk, h4⟩
  | ghost =>
    rw [phase1Single_ghost c pp gp ctx oi hk]
    obtain ⟨h1, h2, h3, h4⟩ := phase1Compute_fields c ctx gp
      { oi with obj := { oi.obj with current_move := Move.wait } }
    exact ⟨h1, h2, h3.trans hk, h4⟩

theorem mapsIf_collAt (mark : DeathState) (cond : Nat → Bool) (A B : List ObjectInfo)
    (h : MapsIf mark cond A B)
    (coll : (Nat × Nat) × (Nat × Nat) → (Nat × Nat) × (Nat × Nat) → Bool)
    (i j : Nat) : collAt coll B i j = collAt coll A i j := by
  unfold collAt
  cases hAi : A.get? i with
  | none =>
    have hBi : B.get? i = none := by rw [h i, hAi]; rfl
    rw [hBi]
  | some oa =>
    obtain ⟨ob, hBi, -, hpb, -⟩ := mapsIf_get?_some mark cond A B h i oa hAi
    rw [hBi]
    cases hAj : A.get? j with
    | none =>
      have hBj : B.get? j = none := by rw [h j, hAj]; rfl
      rw [hBj]
    | some oaj =>
      obtain ⟨obj2, hBj, -, hpbj, -⟩ := mapsIf_get?_some mark cond A B h j oaj hAj
      rw [hBj]
      show coll (posnext ob) (posnext obj2) = coll (posnext oa) (posnext oaj)
      rw [hpb, hpbj]

theorem collidePhase_mapsIf (mark : DeathState)
    (coll : (Nat × Nat) × (Nat × Nat) → (Nat × Nat) × (Nat × Nat) → Bool)
    (b : Bool) (A : List ObjectInfo) :
    MapsIf mark
      (fun k => if b then ghostMarkedUpTo coll A A.length k
        else pacMarkedUpTo coll A A.length k) A (collidePhase mark coll b A) :=
  collide_outer mark coll b A A.length

theorem phase2_mapsIf (b : Bool) (A : List ObjectInfo) :
    MapsIf DeathState.diesAtEnd
      (fun k => if b then ghostMarkedUpTo endCollides A A.length k
        else pacMarkedUpTo endCollides A A.length k) A (phase2 b A) :=
  collidePhase_mapsIf DeathState.diesAtEnd endCollides b A

theorem phase3_mapsIf (b : Bool) (A : List ObjectInfo) :
    MapsIf DeathState.diesInMiddle
      (fun k => if b then ghostMarkedUpTo swapCollides A A.length k
        else pacMarkedUpTo swapCollides A A.length k) A (phase3 b A) :=
  collidePhase_mapsIf DeathState.diesInMiddle swapCollides b A

theorem prepareMovesL_eq (c : List (List Cell)) (pp gp : Program)
    (L : List ObjectInfo) :
    prepareMovesL c pp gp L =
      phase4 (phase3 (isBerryTakenL (phase1 c pp gp L))
        (phase2 (isBerryTakenL (phase1 c pp gp L)) (phase1 c pp gp L))) := rfl

theorem prepareMoves_preserves (c : List (List Cell)) (pp gp : Program)
    (L : List ObjectInfo) (k : Nat) (o1 : ObjectInfo)
    (h : (phase1 c pp gp L).get? k = some o1) :
    ∃ o2, (prepareMovesL c pp gp L).get? k = some o2 ∧
      o2.obj.id = o1.obj.id ∧
      o2.obj.row = o1.obj.row ∧ o2.obj.col = o1.obj.col ∧
      o2.obj.current_move = o1.obj.current_move ∧
      o2.obj.intended_move = o1.obj.intended_move ∧
      o2.obj.kind = o1.obj.kind ∧
      o2.state = o1.state ∧
      o2.next_row = o1.next_row ∧ o2.next_col = o1.next_col := by
  rw [prepareMovesL_eq]
  obtain ⟨o2, h2, -, -, ho2⟩ := mapsIf_get?_some _ _ _ _
    (phase2_mapsIf (isBerryTakenL (phase1 c pp gp L)) (phase1 c pp gp L)) k o1 h
  obtain ⟨o3, h3, -, -, ho3⟩ := mapsIf_get?_some _ _ _ _
    (phase3_mapsIf (isBerryTakenL (phase1 c pp gp L)) _) k o2 h2
  obtain ⟨o4, h4, ho4⟩ := berryMarks_get?_some (phase4_berryMarks _) h3
  refine ⟨o4, h4, ?_⟩
  have f2 : o2.obj.id = o1.obj.id ∧ o2.obj.row = o1.obj.row ∧ o2.obj.col = o1.obj.col ∧
      o2.obj.current_move = o1.obj.current_move ∧
      o2.obj.intended_move = o1.obj.intended_move ∧ o2.obj.kind = o1.obj.kind ∧
      o2.state = o1.state ∧ o2.next_row = o1.next_row ∧ o2.next_col = o1.next_col := by
    rcases ho2 with h' | h' <;> subst h' <;>
      exact ⟨rfl, rfl, rfl, rfl, rfl, rfl, rfl, rfl, rfl⟩
  have f3 : o3.obj.id = o2.obj.id ∧ o3.obj.row = o2.obj.row ∧ o3.obj.col = o2.obj.col ∧
      o3.obj.current_move = o2.obj.current_move ∧
      o3.obj.intended_move = o2.obj.intended_move ∧ o3.obj.kind = o2.obj.kind ∧
      o3.state = o2.state ∧ o3.next_row = o2.next_row ∧ o3.next_col = o2.next_col := by
    rcases ho3 with h' | h' <;> subst h' <;>
      exact ⟨rfl, rfl, rfl, rfl, rfl, rfl, rfl, rfl, rfl⟩
  have f4 : o4.obj.id = o3.obj.id ∧ o4.obj.row = o3.obj.row ∧ o4.obj.col = o3.obj.col ∧
      o4.obj.current_move = o3.obj.current_move ∧
      o4.obj.intended_move = o3.obj.intended_move ∧ o4.obj.kind = o3.obj.kind ∧
      o4.state = o3.state ∧ o4.next_row = o3.next_row ∧ o4.next_col = o3.next_col := by
    rcases ho4 with h' | h' <;> subst h' <;>
      exact ⟨rfl, rfl, rfl, rfl, rfl, rfl, rfl, rfl, rfl⟩
  obtain ⟨a1, a2, a3, a4, a5, a6, a7, a8, a9⟩ := f2
  obtain ⟨b1, b2, b3, b4, b5, b6, b7, b8, b9⟩ := f3
  obtain ⟨d1, d2, d3, d4, d5, d6, d7, d8, d9⟩ := f4
  exact ⟨d1.trans (b1.trans a1), d2.trans (b2.trans a2), d3.trans (b3.trans a3),
    d4.trans (b4.trans a4), d5.trans (b5.trans a5), d6.trans (b6.trans a6),
    d7.trans (b7.trans a7), d8.trans (b8.trans a8), d9.trans (b9.trans a9)⟩

/-! ## Theorems: snapshot timing (claim C10) -/

/-- Claim C10: each Step is snapshotted after move resolution but
before the position commit.  If `o0` is an object (at index `k`) of the
post-cleanup state of a tick, then the resolved state holds an object
`o1` at `k` whose `row`/`col` still equal `o0`'s pre-move position; the
emitted Step contains exactly `o1.obj` (so its `current_move`,
`intended_move` and death state are that tick's resolution), and only
`finish_moves` afterwards replaces the position by the staged
`next_row`/`next_col`. -/
theorem resolved_objects_eq (e : Evaluator) :
    (e.resolved).objects =
      prepareMovesL e.cells e.pacman_program e.ghost_program
        (e.cleanup_objects).objects := rfl

theorem get_step_objects (e : Evaluator) :
    (e.get_step).objects = e.objects.map (fun o => o.obj) := rfl

theorem finish_moves_objects (e : Evaluator) :
    (e.finish_moves).objects = e.objects.map (fun o =>
      { o with obj := { o.obj with row := o.next_row, col := o.next_col } }) := rfl

theorem c10_snapshot_before_commit (e : Evaluator) (k : Nat) (o0 : ObjectInfo)
    (h : (e.cleanup_objects).objects.get? k = some o0) :
    ∃ o1, (e.resolved).objects.get? k = some o1 ∧
      o1.obj.row = o0.obj.row ∧ o1.obj.col = o0.obj.col ∧
      ((e.resolved).get_step).objects.get? k = some o1.obj ∧
      ((e.resolved).finish_moves).objects.get? k =
        some { o1 with obj := { o1.obj with row := o1.next_row, col := o1.next_col } } := by
  have h1 : (phase1 e.cells e.pacman_program e.ghost_program
      (e.cleanup_objects).objects).get? k =
      some (phase1Single e.cells e.pacman_program e.ghost_program
        (e.cleanup_objects).objects o0) := by
    rw [phase1_get? e.cells e.pacman_program e.ghost_program
      (e.cleanup_objects).objects k, h]
    rfl
  obtain ⟨hrow1, hcol1, -, -⟩ := phase1Single_fields e.cells e.pacman_program
    e.ghost_program (e.cleanup_objects).objects o0
  obtain ⟨o2, h2, -, hrow2, hcol2, -, -, -, -, -, -⟩ :=
    prepareMoves_preserves e.cells e.pacman_program e.ghost_program
      (e.cleanup_objects).objects k _ h1
  have hres : (e.resolved).objects.get? k = some o2 := by
    rw [resolved_objects_eq]
    exact h2
  refine ⟨o2, hres, hrow2.trans hrow1, hcol2.trans hcol1, ?_, ?_⟩
  · rw [get_step_objects, List.get?_map, hres]
    rfl
  · rw [finish_moves_objects, List.get?_map, hres]
    rfl

/-- Witness for C10 on the walk-to-berry fixture (the Pac-Man object
at index 0, first tick). -/
theorem c10_snapshot_before_commit_witness :
    ((initEvaluator walkLevel alwaysRight).cleanup_objects).objects.get? 0 =
      some (ObjectInfo.mk (Object.mk 0 0 0 Move.wait Move.wait DeathState.alive
        ObjectKind.pacman) RuleState.A 0 0) ∧
    ∃ o1, ((initEvaluator walkLevel alwaysRight).resolved).objects.get? 0 = some o1 ∧
      o1.obj.row = (Object.mk 0 0 0 Move.wait Move.wait DeathState.alive
        ObjectKind.pacman).row ∧
      o1.obj.col = (Object.mk 0 0 0 Move.wait Move.wait DeathState.alive
        ObjectKind.pacman).col ∧
      (((initEvaluator walkLevel alwaysRight).resolved).get_step).objects.get? 0 =
        some o1.obj ∧
      (((initEvaluator walkLevel alwaysRight).resolved).finish_moves).objects.get? 0 =
        some { o1 with obj := { o1.obj with row := o1.next_row, col := o1.next_col } } :=
  ⟨by decide, c10_snapshot_before_commit (initEvaluator walkLevel alwaysRight) 0
    (ObjectInfo.mk (Object.mk 0 0 0 Move.wait Move.wait DeathState.alive
      ObjectKind.pacman) RuleState.A 0 0) (by decide)⟩

/-! ## Theorems: wall clipping and no wraparound (claim C6) -/

theorem nextPosOf_target (c : List (List Cell)) (o : ObjectInfo) :
    nextPosOf c o =
      if canPass c (moveTarget o.obj.current_move o.obj.row o.obj.col).1
          (moveTarget o.obj.current_move o.obj.row o.obj.col).2 then
        (false, (moveTarget o.obj.current_move o.obj.row o.obj.col).1,
          (moveTarget o.obj.current_move o.obj.row o.obj.col).2)
      else (true, o.obj.row, o.obj.col) := by
  unfold nextPosOf moveTarget
  cases o.obj.current_move <;> rfl

theorem canPass_iff (c : List (List Cell)) (a b : Nat) :
    canPass c a b = true ↔
      ∃ r, c.get? a = some r ∧ r.get? b = some Cell.empty := by
  unfold canPass getStatic
  cases h1 : c.get? a with
  | none => simp [h1]
  | some rcells =>
    cases h2 : rcells[b]? with
    | none => simp [h1, h2]
    | some cell => cases cell <;> simp [h1, h2]

theorem canPass_row_oob (c : List (List Cell)) (a b : Nat) (h : c.length ≤ a) :
    canPass c a b = false := by
  unfold canPass getStatic
  rw [List.get?_eq_none.2 h]
  rfl

theorem canPass_col_oob (c : List (List Cell)) (a b : Nat)
    (h : ∀ r ∈ c, r.length ≤ b) :
    canPass c a b = false := by
  unfold canPass getStatic
  cases h1 : c.get? a with
  | none => rfl
  | some rcells =>
    have h2 : rcells[b]? = none := List.getElem?_eq_none (h rcells (List.get?_mem h1))
    simp [h2]

theorem phase1Compute_next (c : List (List Cell)) (ctx : List ObjectInfo)
    (p : Program) (oi : ObjectInfo) (s : RuleState) (m : Move) (t : Nat × Nat)
    (hm : pickMove c ctx p oi.state oi.obj.row oi.obj.col = (s, m))
    (ht : moveTarget m oi.obj.row oi.obj.col = t) :
    (phase1Compute c ctx p oi).obj.intended_move = m ∧
    (canPass c t.1 t.2 = false →
      (phase1Compute c ctx p oi).obj.current_move = Move.wait ∧
      (phase1Compute c ctx p oi).next_row = oi.obj.row ∧
      (phase1Compute c ctx p oi).next_col = oi.obj.col) ∧
    (canPass c t.1 t.2 = true →
      (phase1Compute c ctx p oi).obj.current_move = m ∧
      (phase1Compute c ctx p oi).next_row = t.1 ∧
      (phase1Compute c ctx p oi).next_col = t.2) := by
  by_cases hcp : canPass c t.1 t.2 = true
  · simp [phase1Compute, hm, nextPosOf_target, ht, hcp]
  · have hcp' : canPass c t.1 t.2 = false := by
      revert hcp; cases canPass c t.1 t.2 <;> simp
    simp [phase1Compute, hm, nextPosOf_target, ht, hcp']

/-- Claim C6: in every tick, an agent whose selected move targets a
Wall cell or a cell outside the grid (`canPass` false, which holds
exactly when no in-grid `Empty` cell is targeted) keeps its position as
the staged next position and has its `current_move` snapped to `Wait`;
otherwise `current_move` equals the intended move and the staged next
position is the target.  An `Up` move from row 0 or a `Left` move from
column 0 is always blocked (the wrapped coordinate `2 ^ 64 - 1` falls
outside any grid smaller than `2 ^ 64`), so no wraparound occurs. -/
theorem c6_wall_clipping (c : List (List Cell)) (pp gp : Program)
    (L : List ObjectInfo) (k : Nat) (oi0 : ObjectInfo) (prog : Program)
    (s : RuleState) (m : Move) (t : Nat × Nat)
    (hk : L.get? k = some oi0)
    (hprog : oi0.obj.kind = ObjectKind.pacman ∧ prog = pp ∨
             oi0.obj.kind = ObjectKind.ghost ∧ prog = gp)
    (hm : pickMove c L prog oi0.state oi0.obj.row oi0.obj.col = (s, m))
    (ht : moveTarget m oi0.obj.row oi0.obj.col = t)
    (hrows : c.length < USIZE_MOD)
    (hcols : ∀ r ∈ c, r.length < USIZE_MOD) :
    ∃ oc, (phase1 c pp gp L).get? k = some oc ∧
      oc.obj.intended_move = m ∧
      (canPass c t.1 t.2 = true ↔
        ∃ r, c.get? t.1 = some r ∧ r.get? t.2 = some Cell.empty) ∧
      (canPass c t.1 t.2 = false →
        oc.obj.current_move = Move.wait ∧
        oc.next_row = oi0.obj.row ∧ oc.next_col = oi0.obj.col) ∧
      (canPass c t.1 t.2 = true →
        oc.obj.current_move = m ∧ oc.next_row = t.1 ∧ oc.next_col = t.2) ∧
      (m = Move.up → oi0.obj.row = 0 → canPass c t.1 t.2 = false) ∧
      (m = Move.left → oi0.obj.col = 0 → canPass c t.1 t.2 = false) := by
  have hU : 0 < USIZE_MOD := by decide
  have hw0 : wrapSub1 0 = USIZE_MOD - 1 := by decide
  have hup : m = Move.up → oi0.obj.row = 0 → canPass c t.1 t.2 = false := by
    intro hmu hrow0
    subst hmu
    rw [hrow0] at ht
    have ht1 : t.1 = wrapSub1 0 := by rw [← ht]; rfl
    apply canPass_row_oob
    rw [ht1, hw0]
    omega
  have hleft : m = Move.left → oi0.obj.col = 0 → canPass c t.1 t.2 = false := by
    intro hml hcol0
    subst hml
    rw [hcol0] at ht
    have ht2 : t.2 = wrapSub1 0 := by rw [← ht]; rfl
    apply canPass_col_oob
    intro r hr
    rw [ht2, hw0]
    have := hcols r hr
    omega
  rcases hprog with ⟨hkind, hpeq⟩ | ⟨hkind, hpeq⟩
  · subst hpeq
    refine ⟨phase1Single c prog gp L oi0, ?_, ?_⟩
    · rw [phase1_get? c prog gp L k, hk]
      rfl
    · rw [phase1Single_pacman c prog gp L oi0 hkind]
      obtain ⟨h1, h2, h3⟩ := phase1Compute_next c L prog
        { oi0 with obj := { oi0.obj with current_move := Move.wait } } s m t hm ht
      exact ⟨h1, canPass_iff c t.1 t.2, h2, h3, hup, hleft⟩
  · subst hpeq
    refine ⟨phase1Single c pp prog L oi0, ?_, ?_⟩
    · rw [phase1_get? c pp prog L k, hk]
      rfl
    · rw [phase1Single_ghost c pp prog L oi0 hkind]
      obtain ⟨h1, h2, h3⟩ := phase1Compute_next c L prog
        { oi0 with obj := { oi0.obj with current_move := Move.wait } } s m t hm ht
      exact ⟨h1, canPass_iff c t.1 t.2, h2, h3, hup, hleft⟩

/-- Witness for C6: the Pac-Man of the walk fixture picks `Right` from
`(0, 0)` on the 1×3 empty strip; the target `(0, 1)` is passable, so the
move commits. -/
theorem c6_wall_clipping_witness :
    ([ObjectInfo.mk (Object.mk 0 0 0 Move.wait Move.wait DeathState.alive
        ObjectKind.pacman) RuleState.A 0 0,
      ObjectInfo.mk (Object.mk 1 0 2 Move.wait Move.wait DeathState.alive
        ObjectKind.berry) RuleState.A 0 2].get? 0 =
      some (ObjectInfo.mk (Object.mk 0 0 0 Move.wait Move.wait DeathState.alive
        ObjectKind.pacman) RuleState.A 0 0)) ∧
    ((ObjectInfo.mk (Object.mk 0 0 0 Move.wait Move.wait DeathState.alive
        ObjectKind.pacman) RuleState.A 0 0).obj.kind = ObjectKind.pacman ∧
      alwaysRight = alwaysRight ∨
     (ObjectInfo.mk (Object.mk 0 0 0 Move.wait Move.wait DeathState.alive
        ObjectKind.pacman) RuleState.A 0 0).obj.kind = ObjectKind.ghost ∧
      alwaysRight = Program.mk []) ∧
    (pickMove [[Cell.empty, Cell.empty, Cell.empty]]
      [ObjectInfo.mk (Object.mk 0 0 0 Move.wait Move.wait DeathState.alive
        ObjectKind.pacman) RuleState.A 0 0,
       ObjectInfo.mk (Object.mk 1 0 2 Move.wait Move.wait DeathState.alive
        ObjectKind.berry) RuleState.A 0 2] alwaysRight RuleState.A 0 0 =
      (RuleState.A, Move.right)) ∧
    (moveTarget Move.right 0 0 = (0, 1)) ∧
    ([[Cell.empty, Cell.empty, Cell.empty]] : List (List Cell)).length < USIZE_MOD ∧
    (∀ r ∈ ([[Cell.empty, Cell.empty, Cell.empty]] : List (List Cell)),
      r.length < USIZE_MOD) ∧
    ∃ oc, (phase1 [[Cell.empty, Cell.empty, Cell.empty]] alwaysRight (Program.mk [])
        [ObjectInfo.mk (Object.mk 0 0 0 Move.wait Move.wait DeathState.alive
          ObjectKind.pacman) RuleState.A 0 0,
         ObjectInfo.mk (Object.mk 1 0 2 Move.wait Move.wait DeathState.alive
          ObjectKind.berry) RuleState.A 0 2]).get? 0 = some oc ∧
      oc.obj.intended_move = Move.right ∧
      (canPass [[Cell.empty, Cell.empty, Cell.empty]] 0 1 = true ↔
        ∃ r, ([[Cell.empty, Cell.empty, Cell.empty]] : List (List Cell)).get? 0 =
          some r ∧ r.get? 1 = some Cell.empty) ∧
      (canPass [[Cell.empty, Cell.empty, Cell.empty]] 0 1 = false →
        oc.obj.current_move = Move.wait ∧ oc.next_row = 0 ∧ oc.next_col = 0) ∧
      (canPass [[Cell.empty, Cell.empty, Cell.empty]] 0 1 = true →
        oc.obj.current_move = Move.right ∧ oc.next_row = 0 ∧ oc.next_col = 1) ∧
      (Move.right = Move.up → (0 : Nat) = 0 →
        canPass [[Cell.empty, Cell.empty, Cell.empty]] 0 1 = false) ∧
      (Move.right = Move.left → (0 : Nat) = 0 →
        canPass [[Cell.empty, Cell.empty, Cell.empty]] 0 1 = false) :=
  ⟨rfl, Or.inl ⟨rfl, rfl⟩, by decide, by decide, by decide, by decide,
    c6_wall_clipping [[Cell.empty, Cell.empty, Cell.empty]] alwaysRight
      (Program.mk [])
      [ObjectInfo.mk (Object.mk 0 0 0 Move.wait Move.wait DeathState.alive
        ObjectKind.pacman) RuleState.A 0 0,
       ObjectInfo.mk (Object.mk 1 0 2 Move.wait Move.wait DeathState.alive
        ObjectKind.berry) RuleState.A 0 2] 0
      (ObjectInfo.mk (Object.mk 0 0 0 Move.wait Move.wait DeathState.alive
        ObjectKind.pacman) RuleState.A 0 0) alwaysRight RuleState.A Move.right
      (0, 1) rfl (Or.inl ⟨rfl, rfl⟩) (by decide) (by decide) (by decide)
      (by decide)⟩

/-! ## Theorems: collision resolution and empowerment (claim C1) -/

theorem state_withDeath (o : ObjectInfo) (d : DeathState) :
    (withDeath o d).obj.state = d := rfl

theorem markedUpTo_congr (mark : DeathState) (cond : Nat → Bool)
    (A B : List ObjectInfo) (h : MapsIf mark cond A B)
    (coll : (Nat × Nat) × (Nat × Nat) → (Nat × Nat) × (Nat × Nat) → Bool)
    (k : Nat) :
    ghostMarkedUpTo coll B B.length k = ghostMarkedUpTo coll A A.length k ∧
    pacMarkedUpTo coll B B.length k = pacMarkedUpTo coll A A.length k := by
  have hlen := mapsIf_length mark cond A B h
  have hk := mapsIf_kind mark cond A B h
  have hc := mapsIf_collAt mark cond A B h coll
  constructor <;> simp only [ghostMarkedUpTo, pacMarkedUpTo, hlen, hk, hc]

/-- Claim C1: a Pac-Man/Ghost collision within one tick is resolved
with the single `is_berry_taken` value sampled between move selection
(phase 1, whose output is `A`) and the collision phases, and that value
equals the pre-tick one (phase 1 never changes object kinds).  When it
is `true` the Ghost is marked dead — `DiesInMiddle` for a swap,
`DiesAtEnd` for an end-cell collision not overwritten by a swap — while
the Pac-Man's object is returned untouched (in particular it stays
`Alive`); when it is `false` the Pac-Man is marked dead the same way,
with no hypothesis excluding a Berry eaten by that Pac-Man in the same
tick (phase 4 runs after and only marks Berries). -/
theorem c1_collision_empowerment (c : List (List Cell)) (pp gp : Program)
    (L A : List ObjectInfo) (i j : Nat) (op og : ObjectInfo)
    (hA : phase1 c pp gp L = A)
    (hi : A.get? i = some op) (hop : op.obj.kind = ObjectKind.pacman)
    (hj : A.get? j = some og) (hog : og.obj.kind = ObjectKind.ghost) :
    isBerryTakenL A = isBerryTakenL L ∧
    (isBerryTakenL A = true →
      (prepareMovesL c pp gp L).get? i = some op ∧
      ∃ od, (prepareMovesL c pp gp L).get? j = some od ∧
        od.obj.kind = ObjectKind.ghost ∧
        (endCollides (posnext op) (posnext og) = true ∨
         swapCollides (posnext op) (posnext og) = true →
          od.obj.state ≠ DeathState.alive) ∧
        (swapCollides (posnext op) (posnext og) = true →
          od.obj.state = DeathState.diesInMiddle) ∧
        (endCollides (posnext op) (posnext og) = true →
         ghostMarkedUpTo swapCollides A A.length j = false →
          od.obj.state = DeathState.diesAtEnd)) ∧
    (isBerryTakenL A = false →
      (prepareMovesL c pp gp L).get? j = some og ∧
      ∃ od, (prepareMovesL c pp gp L).get? i = some od ∧
        od.obj.kind = ObjectKind.pacman ∧
        (endCollides (posnext op) (posnext og) = true ∨
         swapCollides (posnext op) (posnext og) = true →
          od.obj.state ≠ DeathState.alive) ∧
        (swapCollides (posnext op) (posnext og) = true →
          od.obj.state = DeathState.diesInMiddle) ∧
        (endCollides (posnext op) (posnext og) = true →
         pacMarkedUpTo swapCollides A A.length i = false →
          od.obj.state = DeathState.diesAtEnd)) := by
  have hpre : isBerryTakenL A = isBerryTakenL L := by
    rw [← hA]
    exact isBerryTaken_frame (phase1 c pp gp L) L (phase1_frame c pp gp L)
  have hD : prepareMovesL c pp gp L =
      phase4 (phase3 (isBerryTakenL A) (phase2 (isBerryTakenL A) A)) := by
    rw [prepareMovesL_eq, hA]
  have hkpi : isKindAt A ObjectKind.pacman i = true := by
    unfold isKindAt
    rw [hi]
    simp [hop]
  have hkgj : isKindAt A ObjectKind.ghost j = true := by
    unfold isKindAt
    rw [hj]
    simp [hog]
  have hgi : isKindAt A ObjectKind.ghost i = false := by
    unfold isKindAt
    rw [hi]
    simp [hop]
  have hpj : isKindAt A ObjectKind.pacman j = false := by
    unfold isKindAt
    rw [hj]
    simp [hog]
  have hiLen : i < A.length := by
    by_contra hcon
    rw [List.get?_eq_none.2 (by omega)] at hi
    exact Option.noConfusion hi
  have hjLen : j < A.length := by
    by_contra hcon
    rw [List.get?_eq_none.2 (by omega)] at hj
    exact Option.noConfusion hj
  have hcoEnd : collAt endCollides A i j = endCollides (posnext op) (posnext og) := by
    unfold collAt
    rw [hi, hj]
  have hcoSwap : collAt swapCollides A i j =
      swapCollides (posnext op) (posnext og) := by
    unfold collAt
    rw [hi, hj]
  by_cases hbt : isBerryTakenL A = true
  · rw [hbt] at hD
    have h2 : MapsIf DeathState.diesAtEnd
        (fun k => ghostMarkedUpTo endCollides A A.length k) A (phase2 true A) :=
      mapsIf_congr _ _ _ _ _ (phase2_mapsIf true A) (fun k o _ => by simp)
    have h3 : MapsIf DeathState.diesInMiddle
        (fun k => ghostMarkedUpTo swapCollides A A.length k)
        (phase2 true A) (phase3 true (phase2 true A)) :=
      mapsIf_congr _ _ _ _ _ (phase3_mapsIf true (phase2 true A))
        (fun k o _ => by
          simp [(markedUpTo_congr DeathState.diesAtEnd _ A (phase2 true A)
            h2 swapCollides k).1])
    have hc2i : ghostMarkedUpTo endCollides A A.length i = false := by
      simp [ghostMarkedUpTo, hgi]
    have hc3i : ghostMarkedUpTo swapCollides A A.length i = false := by
      simp [ghostMarkedUpTo, hgi]
    have hB2i : (phase2 true A).get? i = some op := by
      rw [h2 i, hi]
      simp [hc2i]
    have hB3i : (phase3 true (phase2 true A)).get? i = some op := by
      rw [h3 i, hB2i]
      simp [hc3i]
    have hDi : (prepareMovesL c pp gp L).get? i = some op := by
      rw [hD]
      exact berryMarks_get?_of_ne_berry (phase4_berryMarks _) hB3i
        (by rw [hop]; simp)
    have hB2j : (phase2 true A).get? j =
        some (if ghostMarkedUpTo endCollides A A.length j then
          withDeath og DeathState.diesAtEnd else og) := by
      rw [h2 j, hj]
      rfl
    have hB3j : (phase3 true (phase2 true A)).get? j =
        some (if ghostMarkedUpTo swapCollides A A.length j then
          withDeath (if ghostMarkedUpTo endCollides A A.length j then
            withDeath og DeathState.diesAtEnd else og) DeathState.diesInMiddle
          else (if ghostMarkedUpTo endCollides A A.length j then
            withDeath og DeathState.diesAtEnd else og)) := by
      rw [h3 j, hB2j]
      rfl
    have hk2 : (if ghostMarkedUpTo endCollides A A.length j then
        withDeath og DeathState.diesAtEnd else og).obj.kind = ObjectKind.ghost := by
      split
      · rw [kind_withDeath, hog]
      · exact hog
    have hk3 : (if ghostMarkedUpTo swapCollides A A.length j then
        withDeath (if ghostMarkedUpTo endCollides A A.length j then
          withDeath og DeathState.diesAtEnd else og) DeathState.diesInMiddle
        else (if ghostMarkedUpTo endCollides A A.length j then
          withDeath og DeathState.diesAtEnd else og)).obj.kind =
        ObjectKind.ghost := by
      split
      · rw [kind_withDeath]
        exact hk2
      · exact hk2
    have hDj : (prepareMovesL c pp gp L).get? j =
        some (if ghostMarkedUpTo swapCollides A A.length j then
          withDeath (if ghostMarkedUpTo endCollides A A.length j then
            withDeath og DeathState.diesAtEnd else og) DeathState.diesInMiddle
          else (if ghostMarkedUpTo endCollides A A.length j then
            withDeath og DeathState.diesAtEnd else og)) := by
      rw [hD]
      exact berryMarks_get?_of_ne_berry (phase4_berryMarks _) hB3j
        (by rw [hk3]; simp)
    have hcend : endCollides (posnext op) (posnext og) = true →
        ghostMarkedUpTo endCollides A A.length j = true := by
      intro he
      unfold ghostMarkedUpTo
      rw [hkgj]
      simp only [Bool.true_and]
      exact List.any_eq_true.2 ⟨i, List.mem_range.2 hiLen, by
        rw [hkpi, hcoEnd, he]
        rfl⟩
    have hcswap : swapCollides (posnext op) (posnext og) = true →
        ghostMarkedUpTo swapCollides A A.length j = true := by
      intro hs
      unfold ghostMarkedUpTo
      rw [hkgj]
      simp only [Bool.true_and]
      exact List.any_eq_true.2 ⟨i, List.mem_range.2 hiLen, by
        rw [hkpi, hcoSwap, hs]
        rfl⟩
    refine ⟨hpre, fun _ => ⟨hDi, _, hDj, hk3, ?_, ?_, ?_⟩,
      fun hbf => absurd hbf (by rw [hbt]; simp)⟩
    · rintro (he | hs)
      · rw [hcend he]
        by_cases hsj : ghostMarkedUpTo swapCollides A A.length j = true
        · rw [hsj]
          simp [state_withDeath]
        · rw [Bool.not_eq_true] at hsj
          rw [hsj]
          simp [state_withDeath]
      · rw [hcswap hs]
        simp [state_withDeath]
    · intro hs
      rw [hcswap hs]
      simp [state_withDeath]
    · intro he hns
      rw [hns, hcend he]
      simp [state_withDeath]
  · have hbf : isBerryTakenL A = false := by
      rw [Bool.not_eq_true] at hbt
      exact hbt
    rw [hbf] at hD
    have h2 : MapsIf DeathState.diesAtEnd
        (fun k => pacMarkedUpTo endCollides A A.length k) A (phase2 false A) :=
      mapsIf_congr _ _ _ _ _ (phase2_mapsIf false A) (fun k o _ => by simp)
    have h3 : MapsIf DeathState.diesInMiddle
        (fun k => pacMarkedUpTo swapCollides A A.length k)
        (phase2 false A) (phase3 false (phase2 false A)) :=
      mapsIf_congr _ _ _ _ _ (phase3_mapsIf false (phase2 false A))
        (fun k o _ => by
          simp [(markedUpTo_congr DeathState.diesAtEnd _ A (phase2 false A)
            h2 swapCollides k).2])
    have hc2j : pacMarkedUpTo endCollides A A.length j = false := by
      simp [pacMarkedUpTo, hpj]
    have hc3j : pacMarkedUpTo swapCollides A A.length j = false := by
      simp [pacMarkedUpTo, hpj]
    have hB2j : (phase2 false A).get? j = some og := by
      rw [h2 j, hj]
      simp [hc2j]
    have hB3j : (phase3 false (phase2 false A)).get? j = some og := by
      rw [h3 j, hB2j]
      simp [hc3j]
    have hDj : (prepareMovesL c pp gp L).get? j = some og := by
      rw [hD]
      exact berryMarks_get?_of_ne_berry (phase4_berryMarks _) hB3j
        (by rw [hog]; simp)
    have hB2i : (phase2 false A).get? i =
        some (if pacMarkedUpTo endCollides A A.length i then
          withDeath op DeathState.diesAtEnd else op) := by
      rw [h2 i, hi]
      rfl
    have hB3i : (phase3 false (phase2 false A)).get? i =
        some (if pacMarkedUpTo swapCollides A A.length i then
          withDeath (if pacMarkedUpTo endCollides A A.length i then
            withDeath op DeathState.diesAtEnd else op) DeathState.diesInMiddle
          else (if pacMarkedUpTo endCollides A A.length i then
            withDeath op DeathState.diesAtEnd else op)) := by
      rw [h3 i, hB2i]
      rfl
    have hk2 : (if pacMarkedUpTo endCollides A A.length i then
        withDeath op DeathState.diesAtEnd else op).obj.kind =
        ObjectKind.pacman := by
      split
      · rw [kind_withDeath, hop]
      · exact hop
    have hk3 : (if pacMarkedUpTo swapCollides A A.length i then
        withDeath (if pacMarkedUpTo endCollides A A.length i then
          withDeath op DeathState.diesAtEnd else op) DeathState.diesInMiddle
        else (if pacMarkedUpTo endCollides A A.length i then
          withDeath op DeathState.diesAtEnd else op)).obj.kind =
        ObjectKind.pacman := by
      split
      · rw [kind_withDeath]
        exact hk2
      · exact hk2
    have hDi : (prepareMovesL c pp gp L).get? i =
        some (if pacMarkedUpTo swapCollides A A.length i then
          withDeath (if pacMarkedUpTo endCollides A A.length i then
            withDeath op DeathState.diesAtEnd else op) DeathState.diesInMiddle
          else (if pacMarkedUpTo endCollides A A.length i then
            withDeath op DeathState.diesAtEnd else op)) := by
      rw [hD]
      exact berryMarks_get?_of_ne_berry (phase4_berryMarks _) hB3i
        (by rw [hk3]; simp)
    have hcend : endCollides (posnext op) (posnext og) = true →
        pacMarkedUpTo endCollides A A.length i = true := by
      intro he
      unfold pacMarkedUpTo
      rw [hkpi]
      simp only [Bool.true_and, decide_eq_true hiLen]
      exact List.any_eq_true.2 ⟨j, List.mem_range.2 hjLen, by
        rw [hkgj, hcoEnd, he]
        rfl⟩
    have hcswap : swapCollides (posnext op) (posnext og) = true →
        pacMarkedUpTo swapCollides A A.length i = true := by
      intro hs
      unfold pacMarkedUpTo
      rw [hkpi]
      simp only [Bool.true_and, decide_eq_true hiLen]
      exact List.any_eq_true.2 ⟨j, List.mem_range.2 hjLen, by
        rw [hkgj, hcoSwap, hs]
        rfl⟩
    refine ⟨hpre, fun hbtt => absurd hbtt (by rw [hbf]; simp),
      fun _ => ⟨hDj, _, hDi, hk3, ?_, ?_, ?_⟩⟩
    · rintro (he | hs)
      · rw [hcend he]
        by_cases hsi : pacMarkedUpTo swapCollides A A.length i = true
        · rw [hsi]
          simp [state_withDeath]
        · rw [Bool.not_eq_true] at hsi
          rw [hsi]
          simp [state_withDeath]
      · rw [hcswap hs]
        simp [state_withDeath]
    · intro hs
      rw [hcswap hs]
      simp [state_withDeath]
    · intro he hns
      rw [hns, hcend he]
      simp [state_withDeath]

/-- Witness for C1: on the chase fixture the level has no berry, so the
sampled `is_berry_taken` is `true` and the theorem's true-branch applies
to the end-cell collision of the Pac-Man with the waiting ghost. -/
theorem c1_collision_empowerment_witness :
    phase1 chaseLevelCells alwaysRight (Program.mk []) chaseObjects =
      [chasePac1, chaseGhost1] ∧
    [chasePac1, chaseGhost1].get? 0 = some chasePac1 ∧
    chasePac1.obj.kind = ObjectKind.pacman ∧
    [chasePac1, chaseGhost1].get? 1 = some chaseGhost1 ∧
    chaseGhost1.obj.kind = ObjectKind.ghost ∧
    (isBerryTakenL [chasePac1, chaseGhost1] = isBerryTakenL chaseObjects ∧
     (isBerryTakenL [chasePac1, chaseGhost1] = true →
       (prepareMovesL chaseLevelCells alwaysRight (Program.mk [])
         chaseObjects).get? 0 = some chasePac1 ∧
       ∃ od, (prepareMovesL chaseLevelCells alwaysRight (Program.mk [])
           chaseObjects).get? 1 = some od ∧
         od.obj.kind = ObjectKind.ghost ∧
         (endCollides (posnext chasePac1) (posnext chaseGhost1) = true ∨
          swapCollides (posnext chasePac1) (posnext chaseGhost1) = true →
           od.obj.state ≠ DeathState.alive) ∧
         (swapCollides (posnext chasePac1) (posnext chaseGhost1) = true →
           od.obj.state = DeathState.diesInMiddle) ∧
         (endCollides (posnext chasePac1) (posnext chaseGhost1) = true →
          ghostMarkedUpTo swapCollides [chasePac1, chaseGhost1]
            ([chasePac1, chaseGhost1] : List ObjectInfo).length 1 = false →
           od.obj.state = DeathState.diesAtEnd)) ∧
     (isBerryTakenL [chasePac1, chaseGhost1] = false →
       (prepareMovesL chaseLevelCells alwaysRight (Program.mk [])
         chaseObjects).get? 1 = some chaseGhost1 ∧
       ∃ od, (prepareMovesL chaseLevelCells alwaysRight (Program.mk [])
           chaseObjects).get? 0 = some od ∧
         od.obj.kind = ObjectKind.pacman ∧
         (endCollides (posnext chasePac1) (posnext chaseGhost1) = true ∨
          swapCollides (posnext chasePac1) (posnext chaseGhost1) = true →
           od.obj.state ≠ DeathState.alive) ∧
         (swapCollides (posnext chasePac1) (posnext chaseGhost1) = true →
           od.obj.state = DeathState.diesInMiddle) ∧
         (endCollides (posnext chasePac1) (posnext chaseGhost1) = true →
          pacMarkedUpTo swapCollides [chasePac1, chaseGhost1]
            ([chasePac1, chaseGhost1] : List ObjectInfo).length 0 = false →
           od.obj.state = DeathState.diesAtEnd))) :=
  ⟨by decide, rfl, rfl, rfl, rfl,
   c1_collision_empowerment chaseLevelCells alwaysRight (Program.mk [])
     chaseObjects [chasePac1, chaseGhost1] 0 1 chasePac1 chaseGhost1
     (by decide) rfl rfl rfl rfl⟩

/-! ## Theorems: submit_program protocol (claim C9) -/

/-- Claim C9: `submit_program` returns `LevelClosed` (with the whole
game state, limiters included, unchanged) when the level is closed;
otherwise it consults the user's limiter, created on demand from the
config defaults, and on denial returns `RateLimitExceeded` leaving the
submissions list and both scoreboards unchanged.  When admitted it
returns `Ok`, appends the submission, leaves the global scoreboard
unchanged, and updates the level scoreboard — with `time = now -
level_start`, `size` the number of rules, and `speed` the number of
steps minus one saturating at zero — exactly when the evaluation
outcome is `Success`. -/
theorem c9_submit_program (g : PacmanGame) (user : String) (program : Program)
    (now : Int) :
    (g.is_level_closed = true →
      g.submit_program user program now = (SubmitResponse.levelClosed, g)) ∧
    (g.is_level_closed = false →
      ((((g.limiters.lookup user).getD
          (RateLimiter.mk_new g.config.rate_limit.count
            g.config.rate_limit.window)).submit now).1 = false →
        (g.submit_program user program now).1 = SubmitResponse.rateLimitExceeded ∧
        (g.submit_program user program now).2.submissions = g.submissions ∧
        (g.submit_program user program now).2.level_scores = g.level_scores ∧
        (g.submit_program user program now).2.global_scores = g.global_scores)) ∧
    (g.is_level_closed = false →
      ((((g.limiters.lookup user).getD
          (RateLimiter.mk_new g.config.rate_limit.count
            g.config.rate_limit.window)).submit now).1 = true →
        (g.submit_program user program now).1 = SubmitResponse.ok ∧
        (g.submit_program user program now).2.submissions = g.submissions ++
          [{ user := user,
             details := evaluate_program g.current_level program
               g.config.max_steps }] ∧
        (g.submit_program user program now).2.global_scores = g.global_scores ∧
        ((evaluate_program g.current_level program g.config.max_steps).outcome =
            Outcome.success →
          (g.submit_program user program now).2.level_scores =
            g.level_scores.add_user_evaluation user (now - g.level_start)
              program.rules.length
              ((evaluate_program g.current_level program
                g.config.max_steps).steps.length - 1)) ∧
        ((evaluate_program g.current_level program g.config.max_steps).outcome ≠
            Outcome.success →
          (g.submit_program user program now).2.level_scores =
            g.level_scores))) := by
  refine ⟨?_, ?_, ?_⟩
  · intro hclosed
    unfold PacmanGame.submit_program
    rw [hclosed]
    rfl
  · intro hopen hden
    simp [PacmanGame.submit_program, hopen, hden]
  · intro hopen hadm
    by_cases hsucc : (evaluate_program g.current_level program
        g.config.max_steps).outcome = Outcome.success
    · simp [PacmanGame.submit_program, hopen, hadm, hsucc]
    · simp [PacmanGame.submit_program, hopen, hadm, hsucc]
